import Mathlib

/-!
# Async++ core: `parallel_for.h` and `ref_count.h`

A shallow embedding of the two headers

* `include/async++/parallel_for.h` : the recursive fork-join algorithm
  `detail::internal_parallel_for` and its entry point `parallel_for`;
* `include/async++/ref_count.h` : the intrusive reference count
  `ref_count_base` and the owning handle `ref_count_ptr`.

The templates are generic over the partitioner, the element function, the
counted object and its deleter; the embedding is generic in the same places.
-/

namespace async

/-! ## parallel_for.h -/

/-- The capability set `internal_parallel_for` uses of its `Partitioner`
template argument.  `split` is the member `partitioner.split()`: it changes
the partitioner it is called on and returns the split-off part, so it is a
function from the state before the call to the pair
(returned `subpart`, `partitioner` after the call).  `elems` is the
iteration `begin() .. end()`. -/
structure Partitioner (P α : Type) where
  split : P → P × P
  elems : P → List α

/-- The record of one activation of `internal_parallel_for`.

* `base calls raised` : the activation took the branch of lines 15-19; `calls`
  are the arguments `func` was invoked on, in order, and `raised` is the
  failure that left the loop, if any.
* `fork spawned inline got raised` : the activation took lines 22-26;
  `spawned` is the record of the activation run by the task handed to
  `local_spawn`, `inline` the record of the recursive call of line 25,
  `got` tells whether line 26 (`t.get()`) was executed and `raised` is the
  failure that left the activation, if any. -/
inductive Activation (α ε : Type) where
  | base (calls : List α) (raised : Option ε)
  | fork (spawned inline : Activation α ε) (got : Bool) (raised : Option ε)
  deriving DecidableEq, Repr

namespace Activation

variable {α ε : Type}

/-- The failure that leaves the activation (`none`: it returns normally). -/
def raised : Activation α ε → Option ε
  | base _ r => r
  | fork _ _ _ r => r

/-- Every argument `func` was invoked on, over the whole tree of activations
(the spawned half listed before the inline half; the two run concurrently, so
only the multiset of this list is schedule-independent). -/
def calls : Activation α ε → List α
  | base cs _ => cs
  | fork s i _ _ => calls s ++ calls i

/-- Number of `local_spawn` calls in the tree of activations. -/
def spawnCount : Activation α ε → Nat
  | base _ _ => 0
  | fork s i _ _ => 1 + spawnCount s + spawnCount i

/-- Number of `t.get()` calls in the tree of activations. -/
def getCount : Activation α ε → Nat
  | base _ _ => 0
  | fork s i g _ => (if g then 1 else 0) + getCount s + getCount i

/-- The base-case activations of the tree, each with the arguments it
iterated. -/
def leaves : Activation α ε → List (List α)
  | base cs _ => [cs]
  | fork s i _ _ => leaves s ++ leaves i

/-- Every recursive-case activation of the tree executed `t.get()` on the
handle of the task it spawned. -/
def allGot : Activation α ε → Bool
  | base _ _ => true
  | fork s i g _ => g && allGot s && allGot i

end Activation

/-- Lines 16-17: `for (auto&& i : partitioner) func(i);`.  `func a = none`
means the call returns, `func a = some e` that it raises `e`, which ends the
loop.  Returns the arguments `func` was invoked on and the failure, if any. -/
def base_loop {α ε : Type} (func : α → Option ε) : List α → List α × Option ε
  | [] => ([], none)
  | a :: rest =>
    match func a with
    | some e => ([a], some e)
    | none => ((base_loop func rest).1.cons a, (base_loop func rest).2)

/-- Modelled from the spec: `local_spawn` and the `get()` of the handle it
returns are declared outside these two headers.  Spawning runs the closure to
completion as a task of its own and captures its failure in the handle;
`get()` blocks until the task is complete and re-raises the captured failure.
This function is lines 25-26 given the record `s` of the spawned task and the
record `i` of the inline call: a failure of line 25 leaves the activation
before line 26 is reached; otherwise `t.get()` runs and re-raises what the
task captured. -/
def join_step {α ε : Type} (s i : Activation α ε) : Activation α ε :=
  match i.raised with
  | some e => Activation.fork s i false (some e)
  | none => Activation.fork s i true s.raised

/-- `detail::internal_parallel_for(sched, partitioner, func)`, lines 10-27.
The scheduler handle is only forwarded to `local_spawn` and is left out.
The recursion of the source is bounded by nothing but the partitioner, so the
embedding takes a bound `fuel` on the depth of nested activations and returns
`none` when it is exceeded. -/
def internal_parallel_for {P α ε : Type} (pt : Partitioner P α) (func : α → Option ε) :
    Nat → P → Option (Activation α ε)
  | 0, _ => none
  | fuel + 1, partitioner =>
    let subpart := (pt.split partitioner).1
    let partitioner := (pt.split partitioner).2
    if (pt.elems subpart).isEmpty then
      some (Activation.base (base_loop func (pt.elems partitioner)).1
        (base_loop func (pt.elems partitioner)).2)
    else
      match internal_parallel_for pt func fuel subpart,
            internal_parallel_for pt func fuel partitioner with
      | some s, some i => some (join_step s i)
      | _, _ => none

/-- `parallel_for(sched, range, func)`, lines 32-36.  `to_partitioner` is
declared outside these two headers and is taken as a parameter. -/
def parallel_for {R P α ε : Type} (pt : Partitioner P α) (to_partitioner : R → P)
    (func : α → Option ε) (fuel : Nat) (range : R) : Option (Activation α ε) :=
  internal_parallel_for pt func fuel (to_partitioner range)

/-- A plain sequential loop, written as a left fold over the elements with
the state (arguments visited so far, failure raised so far): once a call has
failed no further element is visited. -/
def sequential_for {α ε : Type} (func : α → Option ε) (xs : List α) : List α × Option ε :=
  xs.foldl (fun st a => match st.2 with
    | some _ => st
    | none => (st.1 ++ [a], func a)) ([], none)

/-- The partitioner of the concrete scenario: a sub-range `[b, e)` of the
integers, split at its midpoint when it is longer than `grain`.  `split`
returns the upper half and keeps the lower half; a range of length at most
`grain` returns the empty part `[e, e)` and is left as it is. -/
def midpoint_partitioner (grain : Nat) : Partitioner (Nat × Nat) Nat where
  split := fun r =>
    if r.2 - r.1 > grain then
      ((r.1 + (r.2 - r.1) / 2, r.2), (r.1, r.1 + (r.2 - r.1) / 2))
    else ((r.2, r.2), r)
  elems := fun r => List.range' r.1 (r.2 - r.1)

/-- A partitioner that never splits: the sequence of elements itself, whose
`split()` returns the empty part and leaves the partitioner as it is. -/
def unsplit_partitioner (α : Type) : Partitioner (List α) α where
  split := fun l => ([], l)
  elems := fun l => l

/-- The activations started by the activation on `q`: `r` is the split-off
part or the remainder of a `split()` of `q` that returned a part with
non-empty iteration.  This is the relation the recursion of
`internal_parallel_for` descends along. -/
def Partitioner.child {P α : Type} (pt : Partitioner P α) (r q : P) : Prop :=
  (pt.elems (pt.split q).1).isEmpty = false ∧ (r = (pt.split q).1 ∨ r = (pt.split q).2)

/-! ## ref_count.h -/

/-- A variable of type `ref_count_ptr<T>`: either its lifetime has ended
(`dead`) or it is live and holds the field `p`, where `none` is `nullptr` and
`some a` the address of a counted object. -/
inductive Slot where
  | dead
  | live (p : Option Nat)
  deriving DecidableEq, Repr

/-- The memory the operations of `ref_count.h` read and write: the
`ref_count` field of the object at each address, the addresses
`Deleter::do_delete` has been called on (most recent first), and the handle
variables, named by their position. -/
structure Memory where
  ref_count : Nat → Nat
  deleted : List Nat
  handles : List Slot

namespace Memory

/-- The field `p` of handle `h` (`none` for `nullptr`). -/
def p (M : Memory) (h : Nat) : Option Nat :=
  match M.handles.get? h with
  | some (Slot.live q) => q
  | _ => none

/-- Handle `h` names a variable whose lifetime has begun and not ended. -/
def isLive (M : Memory) (h : Nat) : Bool :=
  match M.handles.get? h with
  | some (Slot.live _) => true
  | _ => false

/-- The assignment `h.p = v`. -/
def set_p (M : Memory) (h : Nat) (v : Option Nat) : Memory :=
  { M with handles := M.handles.set h (Slot.live v) }

/-- Number of live handles whose `p` is the address `a`. -/
def liveRefs (M : Memory) (a : Nat) : Nat :=
  M.handles.count (Slot.live (some a))

/-- Number of `Deleter::do_delete` calls on the object at address `a`. -/
def deleteCount (M : Memory) (a : Nat) : Nat :=
  M.deleted.count a

end Memory

namespace ref_count_base

/-- `add_ref(count)`, lines 26-29: `ref_count.fetch_add(count)` on the object
at address `this`; `w` is the width of `std::size_t`. -/
def add_ref (w this count : Nat) (M : Memory) : Memory :=
  { M with ref_count := fun a =>
      if a = this then (M.ref_count this + count) % 2 ^ w else M.ref_count a }

/-- `remove_ref(count)`, lines 30-36: `fetch_sub` stores the difference
modulo `2 ^ w` and returns the previous value; when that value equals `count`
the deleter is called on the object. -/
def remove_ref (w this count : Nat) (M : Memory) : Memory :=
  let old := M.ref_count this
  let M1 : Memory := { M with ref_count := fun a =>
      if a = this then (old + (2 ^ w - count)) % 2 ^ w else M.ref_count a }
  if old = count then { M1 with deleted := this :: M1.deleted } else M1

/-- `add_ref_unlocked()`, lines 37-40: a load followed by a store of the
loaded value plus one. -/
def add_ref_unlocked (w this : Nat) (M : Memory) : Memory :=
  let loaded := M.ref_count this
  { M with ref_count := fun a => if a = this then (loaded + 1) % 2 ^ w else M.ref_count a }

/-- `is_unique_ref(order)`, lines 41-44. -/
def is_unique_ref (this : Nat) (M : Memory) : Bool :=
  M.ref_count this == 1

/-- `explicit ref_count_base(std::size_t count = 1) : ref_count(count) {}`,
lines 22-24: the object at address `this` comes into being with the given
count. -/
def construct (this count : Nat) (M : Memory) : Memory :=
  { M with ref_count := fun a => if a = this then count else M.ref_count a }

end ref_count_base

namespace ref_count_ptr

open ref_count_base

/-- `explicit ref_count_ptr(T* t) : p(t) {}`, lines 55-56: a new handle
variable, placed after the existing ones. -/
def from_raw (t : Option Nat) (M : Memory) : Memory :=
  { M with handles := M.handles ++ [Slot.live t] }

/-- `ref_count_ptr()` and `ref_count_ptr(std::nullptr_t)`, lines 58-61. -/
def from_nullptr (M : Memory) : Memory :=
  from_raw none M

/-- `ref_count_ptr(const ref_count_ptr& other)`, lines 62-67. -/
def copy_construct (w other : Nat) (M : Memory) : Memory :=
  let M1 := from_raw (M.p other) M
  match M.p other with
  | some a => add_ref w a 1 M1
  | none => M1

/-- `ref_count_ptr(ref_count_ptr&& other)`, lines 68-72. -/
def move_construct (other : Nat) (M : Memory) : Memory :=
  let M1 := from_raw (M.p other) M
  M1.set_p other none

/-- `operator=(std::nullptr_t)`, lines 73-79. -/
def assign_nullptr (w this : Nat) (M : Memory) : Memory :=
  let M1 := match M.p this with
    | some a => remove_ref w a 1 M
    | none => M
  M1.set_p this none

/-- `operator=(const ref_count_ptr& other)`, lines 80-90.  `other` is a
reference, so `other.p` is read from memory at line 86, after lines 83-84
have run; `this` and `other` may name the same variable. -/
def copy_assign (w this other : Nat) (M : Memory) : Memory :=
  let M1 := match M.p this with
    | some a => (remove_ref w a 1 M).set_p this none
    | none => M
  let M2 := M1.set_p this (M1.p other)
  match M2.p this with
  | some a => add_ref w a 1 M2
  | none => M2

/-- `operator=(ref_count_ptr&& other)`, lines 91-100, with `other.p` read at
line 97 as in `copy_assign`. -/
def move_assign (w this other : Nat) (M : Memory) : Memory :=
  let M1 := match M.p this with
    | some a => (remove_ref w a 1 M).set_p this none
    | none => M
  let M2 := M1.set_p this (M1.p other)
  M2.set_p other none

/-- `~ref_count_ptr()`, lines 101-105; the variable's lifetime ends. -/
def destroy (w this : Nat) (M : Memory) : Memory :=
  let M1 := match M.p this with
    | some a => remove_ref w a 1 M
    | none => M
  { M1 with handles := M1.handles.set this Slot.dead }

/-- `release()`, lines 119-124: the returned pointer and the memory after. -/
def release (this : Nat) (M : Memory) : Option Nat × Memory :=
  let out := M.p this
  (out, M.set_p this none)

end ref_count_ptr

/-- One operation of a program over handle variables; the operands are
positions of handle variables. -/
inductive Op where
  | copy_construct (other : Nat)
  | move_construct (other : Nat)
  | copy_assign (this other : Nat)
  | move_assign (this other : Nat)
  | assign_nullptr (this : Nat)
  | destroy (this : Nat)
  deriving DecidableEq, Repr

/-- Execute one operation; `none` when an operand is not a live handle
variable (such a program does not exist in the source language). -/
def Op.exec (w : Nat) (M : Memory) : Op → Option Memory
  | Op.copy_construct other =>
    if M.isLive other then some (ref_count_ptr.copy_construct w other M) else none
  | Op.move_construct other =>
    if M.isLive other then some (ref_count_ptr.move_construct other M) else none
  | Op.copy_assign this other =>
    if M.isLive this && M.isLive other then some (ref_count_ptr.copy_assign w this other M)
    else none
  | Op.move_assign this other =>
    if M.isLive this && M.isLive other then some (ref_count_ptr.move_assign w this other M)
    else none
  | Op.assign_nullptr this =>
    if M.isLive this then some (ref_count_ptr.assign_nullptr w this M) else none
  | Op.destroy this =>
    if M.isLive this then some (ref_count_ptr.destroy w this M) else none

/-- Execute a sequence of operations, left to right. -/
def run_ops (w : Nat) : List Op → Memory → Option Memory
  | [], M => some M
  | op :: ops, M =>
    match op.exec w M with
    | some M1 => run_ops w ops M1
    | none => none

/-- The starting point of the balance invariant: `n` live handles, all
holding the address `a`, the count of the object at `a` equal to `n`, no
deleter call so far. -/
def initial_memory (a n : Nat) : Memory where
  ref_count := fun b => if b = a then n else 0
  deleted := []
  handles := List.replicate n (Slot.live (some a))

/-- The balance invariant of the handles of the object at address `a`: every
handle variable is dead, empty or holds `a`; the count of the object equals
the number of live handles that hold it; and the deleter has been called on
it exactly once if no handle holds it any more, and not at all otherwise. -/
def Balanced (a : Nat) (M : Memory) : Prop :=
  (∀ s ∈ M.handles, s = Slot.dead ∨ s = Slot.live none ∨ s = Slot.live (some a)) ∧
  M.ref_count a = M.liveRefs a ∧
  M.deleted = if M.liveRefs a = 0 then [a] else []

/-- A memory with two counted objects, at addresses 0 and 1, each of count 1,
and two handles: handle 0 holds object 0 and handle 1 holds object 1. -/
def two_object_memory : Memory where
  ref_count := fun a => if a < 2 then 1 else 0
  deleted := []
  handles := [Slot.live (some 0), Slot.live (some 1)]

/-- A memory with no counted object and no handle variable. -/
def empty_memory : Memory where
  ref_count := fun _ => 0
  deleted := []
  handles := []

/-- The handle scenario, step 1: an object is created at address `a` with
count 1 and adopted by a new handle `h1` (handle 0) through the explicit
constructor. -/
def scenario_adopted (a : Nat) : Memory :=
  ref_count_ptr.from_raw (some a) (ref_count_base.construct a 1 empty_memory)

/-- The handle scenario, step 2: `h2` (handle 1) is copy-constructed from
`h1`. -/
def scenario_copied (w a : Nat) : Memory :=
  ref_count_ptr.copy_construct w 0 (scenario_adopted a)

/-- The handle scenario, step 3: `h1 = nullptr`. -/
def scenario_nulled (w a : Nat) : Memory :=
  ref_count_ptr.assign_nullptr w 0 (scenario_copied w a)

/-- The handle scenario, step 4: `h2` is destroyed. -/
def scenario_destroyed (w a : Nat) : Memory :=
  ref_count_ptr.destroy w 1 (scenario_nulled w a)

/-- The `split()` calls of a run of `internal_parallel_for`, one per
activation (line 14), each recorded as whether the returned part had a
non-empty iteration (the test of line 15 failed); the activation's own call
first, then those of the spawned half, then those of the inline half.  The
recursion is that of `internal_parallel_for`, with the same bound. -/
def split_calls {P α : Type} (pt : Partitioner P α) : Nat → P → Option (List Bool)
  | 0, _ => none
  | fuel + 1, partitioner =>
    let subpart := (pt.split partitioner).1
    let partitioner := (pt.split partitioner).2
    if (pt.elems subpart).isEmpty then some [false]
    else
      match split_calls pt fuel subpart, split_calls pt fuel partitioner with
      | some s, some i => some (true :: (s ++ i))
      | _, _ => none

/-! ## Lemmas on the base-case loop -/

section loop

variable {α ε : Type}

theorem foldl_after_failure (func : α → Option ε) (xs acc : List α) (e : ε) :
    xs.foldl (fun st a => match st.2 with
      | some _ => st
      | none => (st.1 ++ [a], func a)) (acc, some e) = (acc, some e) := by
  induction xs with
  | nil => rfl
  | cons a rest ih => simpa [List.foldl] using ih

theorem foldl_eq_base_loop (func : α → Option ε) (xs acc : List α) :
    xs.foldl (fun st a => match st.2 with
      | some _ => st
      | none => (st.1 ++ [a], func a)) (acc, none)
      = (acc ++ (base_loop func xs).1, (base_loop func xs).2) := by
  induction xs generalizing acc with
  | nil => simp [base_loop]
  | cons a rest ih =>
    simp only [List.foldl]
    cases hfa : func a with
    | some e => simp [base_loop, hfa, foldl_after_failure]
    | none => rw [ih]; simp [base_loop, hfa]

theorem base_loop_eq_sequential_for (func : α → Option ε) (xs : List α) :
    base_loop func xs = sequential_for func xs := by
  unfold sequential_for
  rw [foldl_eq_base_loop]
  simp

theorem base_loop_of_no_failure (func : α → Option ε) (hf : ∀ a, func a = none)
    (xs : List α) : base_loop func xs = (xs, none) := by
  induction xs with
  | nil => rfl
  | cons a rest ih => simp [base_loop, hf a, ih]

end loop

/-! ## Lemmas on the recursion -/

section recursion

variable {P α ε : Type}

theorem internal_parallel_for_mono (pt : Partitioner P α) (func : α → Option ε)
    (n : Nat) : ∀ (m : Nat) (q : P) (t : Activation α ε), n ≤ m →
      internal_parallel_for pt func n q = some t →
      internal_parallel_for pt func m q = some t := by
  induction n with
  | zero => intro m q t _ h; simp [internal_parallel_for] at h
  | succ n ih =>
    intro m q t hnm h
    obtain ⟨m, rfl⟩ : ∃ k, m = k + 1 := ⟨m - 1, by omega⟩
    have hnm : n ≤ m := by omega
    simp only [internal_parallel_for] at h ⊢
    split at h
    · rename_i hE; simpa [hE] using h
    · rename_i hE
      simp only [hE]
      cases hs : internal_parallel_for pt func n (pt.split q).1 with
      | none => simp [hs] at h
      | some s =>
        cases hi : internal_parallel_for pt func n (pt.split q).2 with
        | none => simp [hs, hi] at h
        | some i =>
          rw [ih m _ s hnm hs, ih m _ i hnm hi]
          simpa [hs, hi] using h

theorem internal_parallel_for_terminates (pt : Partitioner P α) (func : α → Option ε)
    (hwf : WellFounded pt.child) (q : P) :
    ∃ n t, internal_parallel_for pt func n q = some t := by
  induction q using hwf.induction with
  | _ q ih =>
    by_cases hE : (pt.elems (pt.split q).1).isEmpty = true
    · exact ⟨1, Activation.base (base_loop func (pt.elems (pt.split q).2)).1
        (base_loop func (pt.elems (pt.split q).2)).2, by simp [internal_parallel_for, hE]⟩
    · have hE : (pt.elems (pt.split q).1).isEmpty = false := by simpa using hE
      obtain ⟨n1, s, hs⟩ := ih (pt.split q).1 ⟨hE, Or.inl rfl⟩
      obtain ⟨n2, i, hi⟩ := ih (pt.split q).2 ⟨hE, Or.inr rfl⟩
      refine ⟨max n1 n2 + 1, join_step s i, ?_⟩
      simp only [internal_parallel_for, hE]
      rw [internal_parallel_for_mono pt func n1 _ _ s (le_max_left _ _) hs,
        internal_parallel_for_mono pt func n2 _ _ i (le_max_right _ _) hi]
      simp

end recursion

section midpoint

theorem midpoint_partitioner_split_elems (grain : Nat) (q : Nat × Nat) :
    (↑((midpoint_partitioner grain).elems q) : Multiset Nat)
      = ↑((midpoint_partitioner grain).elems ((midpoint_partitioner grain).split q).1)
        + ↑((midpoint_partitioner grain).elems ((midpoint_partitioner grain).split q).2) := by
  obtain ⟨b, e⟩ := q
  simp only [midpoint_partitioner]
  split
  · rw [add_comm, Multiset.coe_add]
    simp only [add_tsub_cancel_left]
    rw [List.range'_append_1]
    congr 2
    omega
  · simp

theorem midpoint_partitioner_wf (grain : Nat) (hg : 1 ≤ grain) :
    WellFounded (midpoint_partitioner grain).child := by
  refine Subrelation.wf ?_ (measure fun q : Nat × Nat => q.2 - q.1).wf
  intro r q h
  obtain ⟨b, e⟩ := q
  obtain ⟨hne, hr⟩ := h
  simp only [midpoint_partitioner] at hne hr
  by_cases hlen : e - b > grain
  · simp only [hlen, if_true] at hr
    have h2 : 1 ≤ (e - b) / 2 := by omega
    show r.2 - r.1 < e - b
    rcases hr with rfl | rfl <;> simp <;> omega
  · simp [hlen] at hne

end midpoint

section parallel_for_claims

variable {P α ε : Type}

theorem Activation.getCount_le_spawnCount (t : Activation α ε) :
    t.getCount ≤ t.spawnCount := by
  induction t with
  | base cs r => simp [Activation.getCount, Activation.spawnCount]
  | fork s i g r ihs ihi =>
    simp only [Activation.getCount, Activation.spawnCount]
    split <;> omega

/-- Every record produced with a non-failing `func` returns normally, has
executed `t.get()` in every recursive-case activation, and counts as many
`get()` calls as spawns. -/
theorem internal_parallel_for_no_failure (pt : Partitioner P α) (func : α → Option ε)
    (hfunc : ∀ a, func a = none) (n : Nat) : ∀ (q : P) (t : Activation α ε),
      internal_parallel_for pt func n q = some t →
      t.raised = none ∧ t.allGot = true ∧ t.getCount = t.spawnCount := by
  induction n with
  | zero => intro q t h; simp [internal_parallel_for] at h
  | succ n ih =>
    intro q t h
    simp only [internal_parallel_for] at h
    split at h
    · cases h
      simp [Activation.raised, Activation.allGot, Activation.getCount, Activation.spawnCount,
        base_loop_of_no_failure func hfunc]
    · cases hs : internal_parallel_for pt func n (pt.split q).1 with
      | none => simp [hs] at h
      | some s =>
        cases hi : internal_parallel_for pt func n (pt.split q).2 with
        | none => simp [hs, hi] at h
        | some i =>
          simp only [hs, hi, Option.some.injEq] at h
          obtain ⟨hs1, hs2, hs3⟩ := ih _ s hs
          obtain ⟨hi1, hi2, hi3⟩ := ih _ i hi
          subst h
          unfold join_step
          rw [hi1]
          refine ⟨hs1, ?_, ?_⟩
          · simp [Activation.allGot, hs2, hi2]
          · simp [Activation.getCount, Activation.spawnCount, hs3, hi3]

/-- With a splitting that loses and duplicates nothing and a non-failing
`func`, every record calls `func` on the elements of its partitioner, as a
multiset. -/
theorem internal_parallel_for_calls (pt : Partitioner P α) (func : α → Option ε)
    (hsplit : ∀ q, (↑(pt.elems q) : Multiset α)
      = ↑(pt.elems (pt.split q).1) + ↑(pt.elems (pt.split q).2))
    (hfunc : ∀ a, func a = none) (n : Nat) : ∀ (q : P) (t : Activation α ε),
      internal_parallel_for pt func n q = some t →
      (↑t.calls : Multiset α) = ↑(pt.elems q) := by
  induction n with
  | zero => intro q t h; simp [internal_parallel_for] at h
  | succ n ih =>
    intro q t h
    simp only [internal_parallel_for] at h
    split at h
    · rename_i hE
      cases h
      have hE : pt.elems (pt.split q).1 = [] := by simpa using hE
      rw [hsplit q, hE]
      simp [Activation.calls, base_loop_of_no_failure func hfunc]
    · cases hs : internal_parallel_for pt func n (pt.split q).1 with
      | none => simp [hs] at h
      | some s =>
        cases hi : internal_parallel_for pt func n (pt.split q).2 with
        | none => simp [hs, hi] at h
        | some i =>
          simp only [hs, hi, Option.some.injEq] at h
          have h1 := ih _ s hs
          have h2 := ih _ i hi
          subst h
          have hc : (join_step s i).calls = s.calls ++ i.calls := by
            unfold join_step; split <;> rfl
          rw [hc, hsplit q, ← h1, ← h2]
          rfl

/-- C1 (partition coverage).  For a partitioner whose `split()` divides the
elements into the split-off part and the remainder with no overlap and no
gaps, whose repeated splitting is well-founded, and a non-failing `func`:
`internal_parallel_for` on `to_partitioner range`, which is what
`parallel_for` runs, returns (for every sufficient bound on the nesting) a
record whose multiset of `func` arguments is the multiset of elements of the
initial partitioner. -/
theorem partition_coverage {R : Type} (pt : Partitioner P α) (func : α → Option ε)
    (to_partitioner : R → P) (range : R)
    (hsplit : ∀ q, (↑(pt.elems q) : Multiset α)
      = ↑(pt.elems (pt.split q).1) + ↑(pt.elems (pt.split q).2))
    (hwf : WellFounded pt.child)
    (hfunc : ∀ a, func a = none) :
    ∃ n, ∀ m, n ≤ m → ∃ t,
      internal_parallel_for pt func m (to_partitioner range) = some t ∧
      parallel_for pt to_partitioner func m range = some t ∧
      (↑t.calls : Multiset α) = ↑(pt.elems (to_partitioner range)) := by
  obtain ⟨n, t, ht⟩ := internal_parallel_for_terminates pt func hwf (to_partitioner range)
  refine ⟨n, fun m hm => ⟨t, ?_, ?_, ?_⟩⟩
  · exact internal_parallel_for_mono pt func n m _ t hm ht
  · exact internal_parallel_for_mono pt func n m _ t hm ht
  · exact internal_parallel_for_calls pt func hsplit hfunc n _ t ht

/-- C2 (base-case equivalence).  For a partitioner whose `split()` always
returns a part with empty iteration and any `func`, failing or not, every
activation of `internal_parallel_for` is a base case that spawns nothing, and
its calls of `func` and its failure are those of the plain sequential loop
over `partitioner` as line 16 iterates it, that is as the `split()` call of
line 14 left it.  When that call left the iteration as it was, this is the
plain sequential loop over the partitioner passed in. -/
theorem base_case_equivalence (pt : Partitioner P α) (func : α → Option ε)
    (hnever : ∀ q, pt.elems (pt.split q).1 = []) (fuel : Nat) (partitioner : P) :
    ∃ t, internal_parallel_for pt func (fuel + 1) partitioner = some t ∧
      t = Activation.base (sequential_for func (pt.elems (pt.split partitioner).2)).1
            (sequential_for func (pt.elems (pt.split partitioner).2)).2 ∧
      t.spawnCount = 0 ∧
      (pt.elems (pt.split partitioner).2 = pt.elems partitioner →
        t.calls = (sequential_for func (pt.elems partitioner)).1 ∧
        t.raised = (sequential_for func (pt.elems partitioner)).2) := by
  refine ⟨_, ?_, rfl, rfl, ?_⟩
  · simp [internal_parallel_for, hnever, base_loop_eq_sequential_for]
  · intro h
    simp [h, Activation.calls, Activation.raised]

/-- Witness of C2: the never-splitting partitioner over `[0, 1, 2]` with a
`func` that fails on `1`. -/
theorem base_case_equivalence_witness :
    (∀ q, (unsplit_partitioner Nat).elems ((unsplit_partitioner Nat).split q).1 = []) ∧
    ∃ t, internal_parallel_for (unsplit_partitioner Nat)
        (fun a => if a = 1 then some a else none) (0 + 1) [0, 1, 2] = some t ∧
      t = Activation.base
            (sequential_for (fun a => if a = 1 then some a else none)
              ((unsplit_partitioner Nat).elems ((unsplit_partitioner Nat).split [0, 1, 2]).2)).1
            (sequential_for (fun a => if a = 1 then some a else none)
              ((unsplit_partitioner Nat).elems ((unsplit_partitioner Nat).split [0, 1, 2]).2)).2 ∧
      t.spawnCount = 0 ∧
      ((unsplit_partitioner Nat).elems ((unsplit_partitioner Nat).split [0, 1, 2]).2
          = (unsplit_partitioner Nat).elems [0, 1, 2] →
        t.calls = (sequential_for (fun a => if a = 1 then some a else none)
          ((unsplit_partitioner Nat).elems [0, 1, 2])).1 ∧
        t.raised = (sequential_for (fun a => if a = 1 then some a else none)
          ((unsplit_partitioner Nat).elems [0, 1, 2])).2) :=
  ⟨fun _ => rfl, base_case_equivalence (unsplit_partitioner Nat)
    (fun a => if a = 1 then some a else none) (fun _ => rfl) 0 [0, 1, 2]⟩

/-- Witness of C1: the midpoint partitioner of grain 2 over `[0, 8)`. -/
theorem partition_coverage_witness :
    (∀ q, (↑((midpoint_partitioner 2).elems q) : Multiset Nat)
      = ↑((midpoint_partitioner 2).elems ((midpoint_partitioner 2).split q).1)
        + ↑((midpoint_partitioner 2).elems ((midpoint_partitioner 2).split q).2)) ∧
    WellFounded (midpoint_partitioner 2).child ∧
    (∀ a : Nat, (fun _ => (none : Option Unit)) a = none) ∧
    ∃ n, ∀ m, n ≤ m → ∃ t,
      internal_parallel_for (midpoint_partitioner 2) (fun _ => (none : Option Unit)) m
        (id (0, 8)) = some t ∧
      parallel_for (midpoint_partitioner 2) id (fun _ => (none : Option Unit)) m (0, 8)
        = some t ∧
      (↑t.calls : Multiset Nat) = ↑((midpoint_partitioner 2).elems (id (0, 8))) :=
  ⟨midpoint_partitioner_split_elems 2, midpoint_partitioner_wf 2 (by decide), fun _ => rfl,
    partition_coverage (midpoint_partitioner 2) (fun _ => (none : Option Unit)) id (0, 8)
      (midpoint_partitioner_split_elems 2) (midpoint_partitioner_wf 2 (by decide))
      (fun _ => rfl)⟩

/-- C7 (join completeness).  For a partitioner with well-founded splitting
and a non-failing `func`, `parallel_for` returns (for every sufficient bound
on the nesting) normally, with a record in which the number of `local_spawn`
calls equals the number of `get()` calls and every recursive-case activation
has executed `get()` on the handle of the one task it spawned. -/
theorem join_completeness {R : Type} (pt : Partitioner P α) (func : α → Option ε)
    (to_partitioner : R → P) (range : R)
    (hwf : WellFounded pt.child)
    (hfunc : ∀ a, func a = none) :
    ∃ n, ∀ m, n ≤ m → ∃ t,
      parallel_for pt to_partitioner func m range = some t ∧
      t.raised = none ∧ t.spawnCount = t.getCount ∧ t.allGot = true := by
  obtain ⟨n, t, ht⟩ := internal_parallel_for_terminates pt func hwf (to_partitioner range)
  obtain ⟨h1, h2, h3⟩ := internal_parallel_for_no_failure pt func hfunc n _ t ht
  exact ⟨n, fun m hm => ⟨t, internal_parallel_for_mono pt func n m _ t hm ht, h1, h3.symm, h2⟩⟩

/-- Witness of C7: the midpoint partitioner of grain 2 over `[0, 8)`. -/
theorem join_completeness_witness :
    WellFounded (midpoint_partitioner 2).child ∧
    (∀ a : Nat, (fun _ => (none : Option Unit)) a = none) ∧
    ∃ n, ∀ m, n ≤ m → ∃ t,
      parallel_for (midpoint_partitioner 2) id (fun _ => (none : Option Unit)) m (0, 8)
        = some t ∧
      t.raised = none ∧ t.spawnCount = t.getCount ∧ t.allGot = true :=
  ⟨midpoint_partitioner_wf 2 (by decide), fun _ => rfl,
    join_completeness (midpoint_partitioner 2) (fun _ => (none : Option Unit)) id (0, 8)
      (midpoint_partitioner_wf 2 (by decide)) (fun _ => rfl)⟩

/-- C8, refuted as stated: on `[0, 2)` split into `[1, 2)` (spawned) and
`[0, 1)` (inline) with a `func` that raises its argument, the inline run
fails, `get()` is not executed, one task was spawned and none joined, and the
failure `1` captured by the spawned task is dropped: the activation raises
the inline failure `0`. -/
theorem no_leaked_task_counterexample :
    ∃ t, internal_parallel_for (midpoint_partitioner 1) (fun a => some a) 2 (0, 2) = some t ∧
      t = Activation.fork (Activation.base [1] (some 1)) (Activation.base [0] (some 0))
            false (some 0) ∧
      t.spawnCount = 1 ∧ t.getCount = 0 ∧ t.allGot = false :=
  ⟨_, by decide, rfl, rfl, rfl, rfl⟩

/-- C8 as amended.  In a recursive-case activation (the `split()` returned a
part with non-empty iteration) whose spawned task leaves the record `s` and
whose inline run leaves the record `i`: when the inline run raises `e`, the
activation raises `e` without executing `get()`, whatever the spawned task
captured, and its record counts fewer `get()` calls than spawns; when the
inline run returns, `get()` is executed and raises what the spawned task
captured. -/
theorem inline_failure_leaves_before_get (pt : Partitioner P α) (func : α → Option ε)
    (fuel : Nat) (q : P) (s i : Activation α ε)
    (hsplit : (pt.elems (pt.split q).1).isEmpty = false)
    (hs : internal_parallel_for pt func fuel (pt.split q).1 = some s)
    (hi : internal_parallel_for pt func fuel (pt.split q).2 = some i) :
    ∃ t, internal_parallel_for pt func (fuel + 1) q = some t ∧
      (∀ e, i.raised = some e →
        t = Activation.fork s i false (some e) ∧ t.getCount < t.spawnCount) ∧
      (i.raised = none → t = Activation.fork s i true s.raised) := by
  refine ⟨join_step s i, by simp [internal_parallel_for, hsplit, hs, hi], ?_, ?_⟩
  · intro e he
    have hs' := s.getCount_le_spawnCount
    have hi' := i.getCount_le_spawnCount
    refine ⟨by simp only [join_step, he], ?_⟩
    simp only [join_step, he, Activation.getCount, Activation.spawnCount,
      Bool.false_eq_true, if_false]
    omega
  · intro he
    simp only [join_step, he]

/-- Witness of C8 as amended: `[0, 2)` with a `func` that raises its
argument. -/
theorem inline_failure_leaves_before_get_witness :
    ((midpoint_partitioner 1).elems ((midpoint_partitioner 1).split (0, 2)).1).isEmpty = false ∧
    ∃ t, internal_parallel_for (midpoint_partitioner 1) (fun a => some a) (1 + 1) (0, 2)
        = some t ∧
      (∀ e, (Activation.base [0] (some 0) : Activation Nat Nat).raised = some e →
        t = Activation.fork (Activation.base [1] (some 1)) (Activation.base [0] (some 0))
              false (some e) ∧ t.getCount < t.spawnCount) ∧
      ((Activation.base [0] (some 0) : Activation Nat Nat).raised = none →
        t = Activation.fork (Activation.base [1] (some 1)) (Activation.base [0] (some 0))
              true (Activation.base [1] (some 1) : Activation Nat Nat).raised) :=
  ⟨by decide, inline_failure_leaves_before_get (midpoint_partitioner 1) (fun a => some a) 1
    (0, 2) (Activation.base [1] (some 1)) (Activation.base [0] (some 0))
    (by decide) (by decide) (by decide)⟩

/-- C9 (concrete scenario).  On the integers `[0, 8)` with the partitioner
that splits a sub-range longer than 2 at its midpoint and a non-failing
`func`, `internal_parallel_for` returns the record of three recursive-case
activations (the split of `[0, 8)` into `[4, 8)` and `[0, 4)` and the splits
of these two into halves of length 2) over four base cases: it visits the
multiset `{0, ..., 7}`, spawns exactly 3 tasks and has exactly 4 base-case
leaves, each iterating 2 elements. -/
theorem concrete_scenario (func : Nat → Option ε) (hfunc : ∀ a, func a = none)
    (fuel : Nat) (hfuel : 3 ≤ fuel) :
    ∃ t, internal_parallel_for (midpoint_partitioner 2) func fuel (0, 8) = some t ∧
      t = Activation.fork
            (Activation.fork (Activation.base [6, 7] none) (Activation.base [4, 5] none)
              true none)
            (Activation.fork (Activation.base [2, 3] none) (Activation.base [0, 1] none)
              true none)
            true none ∧
      (↑t.calls : Multiset Nat) = {0, 1, 2, 3, 4, 5, 6, 7} ∧
      t.spawnCount = 3 ∧
      t.leaves.length = 4 ∧
      ∀ l ∈ t.leaves, l.length = 2 := by
  refine ⟨_, internal_parallel_for_mono (midpoint_partitioner 2) func 3 fuel (0, 8) _ hfuel ?_,
    rfl, ?_, rfl, rfl, ?_⟩
  · simp [internal_parallel_for, midpoint_partitioner, base_loop_of_no_failure func hfunc,
      join_step, Activation.raised, List.range']
  · show (↑[6, 7, 4, 5, 2, 3, 0, 1] : Multiset Nat) = {0, 1, 2, 3, 4, 5, 6, 7}
    decide
  · show ∀ l ∈ [[6, 7], [4, 5], [2, 3], [0, 1]], l.length = 2
    decide

/-- Witness of C9: a `func` that never fails, nesting bound 3. -/
theorem concrete_scenario_witness :
    (∀ a : Nat, (fun _ => (none : Option Unit)) a = none) ∧ 3 ≤ 3 ∧
    ∃ t, internal_parallel_for (midpoint_partitioner 2) (fun _ => (none : Option Unit)) 3 (0, 8)
        = some t ∧
      t = Activation.fork
            (Activation.fork (Activation.base [6, 7] none) (Activation.base [4, 5] none)
              true none)
            (Activation.fork (Activation.base [2, 3] none) (Activation.base [0, 1] none)
              true none)
            true none ∧
      (↑t.calls : Multiset Nat) = {0, 1, 2, 3, 4, 5, 6, 7} ∧
      t.spawnCount = 3 ∧
      t.leaves.length = 4 ∧
      ∀ l ∈ t.leaves, l.length = 2 :=
  ⟨fun _ => rfl, le_refl 3, concrete_scenario (fun _ => (none : Option Unit)) (fun _ => rfl) 3
    (le_refl 3)⟩

/-- C10 (empty range).  For a partitioner over an empty range (its iteration
is empty, its `split()` returns a part with empty iteration, and what
`split()` leaves in the partitioner are elements the partitioner had, so
none), `parallel_for` returns from the base case of the first activation: no
task is spawned and `func` is not invoked. -/
theorem empty_range {R : Type} (pt : Partitioner P α) (func : α → Option ε)
    (to_partitioner : R → P) (range : R)
    (hempty : pt.elems (to_partitioner range) = [])
    (hsub : pt.elems (pt.split (to_partitioner range)).1 = [])
    (hrest : pt.elems (pt.split (to_partitioner range)).2 ⊆ pt.elems (to_partitioner range))
    (fuel : Nat) :
    ∃ t, parallel_for pt to_partitioner func (fuel + 1) range = some t ∧
      t = Activation.base [] none ∧ t.raised = none ∧
      t.spawnCount = 0 ∧ t.getCount = 0 ∧ t.calls = [] := by
  have hnil : pt.elems (pt.split (to_partitioner range)).2 = [] := by
    rw [hempty] at hrest
    exact List.subset_nil.mp hrest
  refine ⟨_, ?_, rfl, rfl, rfl, rfl, rfl⟩
  simp [parallel_for, internal_parallel_for, hsub, hnil, base_loop]

/-- Witness of C10: the midpoint partitioner of grain 2 over `[5, 5)`, with
a `func` that would fail on every element. -/
theorem empty_range_witness :
    (midpoint_partitioner 2).elems (id (5, 5)) = [] ∧
    (midpoint_partitioner 2).elems ((midpoint_partitioner 2).split (id (5, 5))).1 = [] ∧
    (midpoint_partitioner 2).elems ((midpoint_partitioner 2).split (id (5, 5))).2
      ⊆ (midpoint_partitioner 2).elems (id (5, 5)) ∧
    ∃ t, parallel_for (midpoint_partitioner 2) id (fun a => some a) (0 + 1) (5, 5) = some t ∧
      t = Activation.base [] none ∧ t.raised = none ∧
      t.spawnCount = 0 ∧ t.getCount = 0 ∧ t.calls = [] :=
  ⟨by decide, by decide, by decide,
    empty_range (midpoint_partitioner 2) (fun a => some a) id (5, 5) (by decide) (by decide)
      (by decide) 0⟩

end parallel_for_claims


/-! ## Lemmas on the memory of `ref_count.h` -/

section memory

open ref_count_base ref_count_ptr

theorem Memory.handles_of_p {M : Memory} {h a : Nat} (hp : M.p h = some a) :
    M.handles[h]? = some (Slot.live (some a)) := by
  unfold Memory.p at hp
  rw [List.get?_eq_getElem?] at hp
  split at hp
  · rename_i q hq; rw [hq, hp]
  · cases hp

theorem Memory.handles_of_isLive {M : Memory} {h : Nat} (hl : M.isLive h = true) :
    M.handles[h]? = some (Slot.live (M.p h)) := by
  unfold Memory.isLive at hl
  unfold Memory.p
  rw [List.get?_eq_getElem?] at hl ⊢
  split at hl
  · rename_i q hq; rw [hq]
  · cases hl

theorem Memory.p_of_handles {M : Memory} {h : Nat} {q : Option Nat}
    (hq : M.handles[h]? = some (Slot.live q)) : M.p h = q := by
  unfold Memory.p
  rw [List.get?_eq_getElem?, hq]

theorem Memory.isLive_of_handles {M : Memory} {h : Nat} {q : Option Nat}
    (hq : M.handles[h]? = some (Slot.live q)) : M.isLive h = true := by
  unfold Memory.isLive
  rw [List.get?_eq_getElem?, hq]

theorem Memory.lt_length_of_handles {M : Memory} {h : Nat} {s : Slot}
    (hq : M.handles[h]? = some s) : h < M.handles.length := by
  by_contra hlt
  rw [List.getElem?_eq_none (by omega)] at hq
  cases hq

theorem Memory.set_p_handles_self {M : Memory} {h : Nat} {s : Slot} (v : Option Nat)
    (hq : M.handles[h]? = some s) : (M.set_p h v).handles[h]? = some (Slot.live v) := by
  simp [Memory.set_p, List.getElem?_set_self (Memory.lt_length_of_handles hq)]

theorem Memory.set_p_handles_ne (M : Memory) {h k : Nat} (v : Option Nat) (hk : h ≠ k) :
    (M.set_p h v).handles[k]? = M.handles[k]? := by
  simp [Memory.set_p, List.getElem?_set_ne hk]

theorem remove_ref_handles (w this n : Nat) (M : Memory) :
    (remove_ref w this n M).handles = M.handles := by
  by_cases h : M.ref_count this = n <;> simp [remove_ref, h]

theorem remove_ref_ref_count (w this n : Nat) (M : Memory) (a : Nat) :
    (remove_ref w this n M).ref_count a
      = if a = this then (M.ref_count this + (2 ^ w - n)) % 2 ^ w else M.ref_count a := by
  by_cases h : M.ref_count this = n <;> simp [remove_ref, h]

theorem remove_ref_deleted (w this n : Nat) (M : Memory) :
    (remove_ref w this n M).deleted
      = if M.ref_count this = n then this :: M.deleted else M.deleted := by
  by_cases h : M.ref_count this = n <;> simp [remove_ref, h]

/-- Subtraction on `std::size_t`: the stored value is the difference modulo
`2 ^ w`. -/
theorem fetch_sub_value (w c n : Nat) (hc : c < 2 ^ w) (hn : n < 2 ^ w) :
    (((c + (2 ^ w - n)) % 2 ^ w : Nat) : Int) = ((c : Int) - (n : Int)) % ((2 ^ w : Nat) : Int) := by
  by_cases h : n ≤ c
  · have h1 : c + (2 ^ w - n) = (c - n) + 2 ^ w := by omega
    rw [h1, Nat.add_mod_right, Nat.mod_eq_of_lt (by omega)]
    rw [Int.emod_eq_of_lt (by omega) (by omega)]
    omega
  · rw [Nat.mod_eq_of_lt (by omega)]
    rw [← Int.add_emod_self, Int.emod_eq_of_lt (by omega) (by omega)]
    omega

theorem fetch_sub_one (w c : Nat) (h1 : 1 ≤ c) (hc : c < 2 ^ w) :
    (c + (2 ^ w - 1)) % 2 ^ w = c - 1 := by
  have h : c + (2 ^ w - 1) = (c - 1) + 2 ^ w := by omega
  rw [h, Nat.add_mod_right, Nat.mod_eq_of_lt (by omega)]

end memory

section memory_handles

open ref_count_base ref_count_ptr

theorem Memory.p_congr {M N : Memory} (h : M.handles = N.handles) (k : Nat) : M.p k = N.p k := by
  unfold Memory.p; rw [h]

theorem Memory.set_p_p_self {M : Memory} {h : Nat} {s : Slot} (v : Option Nat)
    (hq : M.handles[h]? = some s) : (M.set_p h v).p h = v :=
  Memory.p_of_handles (Memory.set_p_handles_self v hq)

theorem Memory.set_p_p_ne (M : Memory) {h k : Nat} (v : Option Nat) (hk : h ≠ k) :
    (M.set_p h v).p k = M.p k := by
  unfold Memory.p
  rw [List.get?_eq_getElem?, List.get?_eq_getElem?, Memory.set_p_handles_ne M v hk]

theorem count_set_add (l : List Slot) (i : Nat) (old new x : Slot) (h : l[i]? = some old) :
    (l.set i new).count x + (if old = x then 1 else 0)
      = l.count x + (if new = x then 1 else 0) := by
  induction l generalizing i with
  | nil => simp at h
  | cons y l ih =>
    cases i with
    | zero =>
      simp only [List.getElem?_cons_zero, Option.some.injEq] at h
      subst h
      simp only [List.set_cons_zero, List.count_cons, beq_iff_eq]
      omega
    | succ i =>
      simp only [List.getElem?_cons_succ] at h
      have := ih i h
      simp only [List.set_cons_succ, List.count_cons, beq_iff_eq]
      omega

end memory_handles

section balance

open ref_count_base ref_count_ptr

theorem count_pos_of_getElem? {l : List Slot} {i : Nat} {x : Slot} (h : l[i]? = some x) :
    1 ≤ l.count x := by
  have hmem : x ∈ l := List.getElem?_mem h
  exact List.count_pos_iff.mpr hmem

theorem balanced_initial (a n : Nat) (hn : 0 < n) : Balanced a (initial_memory a n) := by
  have hk : (initial_memory a n).liveRefs a = n := by
    simp [Memory.liveRefs, initial_memory, List.count_replicate]
  refine ⟨?_, ?_, ?_⟩
  · intro s hs
    simp only [initial_memory] at hs
    exact Or.inr (Or.inr (List.eq_of_mem_replicate hs))
  · rw [hk]; simp [initial_memory]
  · rw [hk, if_neg (by omega)]; rfl

/-- Retiring the reference of a handle that holds `a`: one decrement, and the
slot becomes empty or dead. -/
theorem balanced_drop {a w h : Nat} {s' : Slot} {M N : Memory} (hM : Balanced a M)
    (hh : M.handles[h]? = some (Slot.live (some a))) (hlen : M.handles.length < 2 ^ w)
    (hs' : s' = Slot.dead ∨ s' = Slot.live none)
    (hrc : N.ref_count a = (M.ref_count a + (2 ^ w - 1)) % 2 ^ w)
    (hd : N.deleted = if M.ref_count a = 1 then a :: M.deleted else M.deleted)
    (hhs : N.handles = M.handles.set h s') : Balanced a N := by
  obtain ⟨h1, h2, h3⟩ := hM
  have hpos := count_pos_of_getElem? hh
  have hle : M.handles.count (Slot.live (some a)) ≤ M.handles.length := List.count_le_length _ _
  have hcnt := count_set_add M.handles h (Slot.live (some a)) s' (Slot.live (some a)) hh
  have hne : ¬ s' = Slot.live (some a) := by rcases hs' with rfl | rfl <;> simp
  simp only [if_true, hne, if_false] at hcnt
  simp only [Memory.liveRefs] at h2 h3
  refine ⟨?_, ?_, ?_⟩
  · intro s hs
    rw [hhs] at hs
    rcases List.mem_or_eq_of_mem_set hs with hs | rfl
    · exact h1 s hs
    · rcases hs' with rfl | rfl <;> simp
  · simp only [Memory.liveRefs]
    rw [hrc, hhs, h2, fetch_sub_one w _ hpos (by omega)]
    omega
  · have hN : N.handles.count (Slot.live (some a))
        = M.handles.count (Slot.live (some a)) - 1 := by rw [hhs]; omega
    simp only [Memory.liveRefs, hN]
    rw [hd, h3, h2]
    by_cases hk : M.handles.count (Slot.live (some a)) = 1
    · simp [hk]
    · have h0 : M.handles.count (Slot.live (some a)) ≠ 0 := by omega
      have h0' : M.handles.count (Slot.live (some a)) - 1 ≠ 0 := by omega
      simp [hk, h0, h0']

/-- Overwriting a slot that holds no reference with an empty or dead slot. -/
theorem balanced_same {a h : Nat} {s s' : Slot} {M N : Memory} (hM : Balanced a M)
    (hh : M.handles[h]? = some s) (hs : s = Slot.dead ∨ s = Slot.live none)
    (hs' : s' = Slot.dead ∨ s' = Slot.live none)
    (hrc : N.ref_count a = M.ref_count a) (hd : N.deleted = M.deleted)
    (hhs : N.handles = M.handles.set h s') : Balanced a N := by
  obtain ⟨h1, h2, h3⟩ := hM
  have hcnt := count_set_add M.handles h s s' (Slot.live (some a)) hh
  have hne : ¬ s' = Slot.live (some a) := by rcases hs' with rfl | rfl <;> simp
  have hne0 : ¬ s = Slot.live (some a) := by rcases hs with rfl | rfl <;> simp
  simp only [hne, hne0, if_false, add_zero] at hcnt
  simp only [Memory.liveRefs] at h2 h3
  refine ⟨?_, ?_, ?_⟩
  · intro t ht
    rw [hhs] at ht
    rcases List.mem_or_eq_of_mem_set ht with ht | rfl
    · exact h1 t ht
    · rcases hs' with rfl | rfl <;> simp
  · simp only [Memory.liveRefs]; rw [hrc, hhs, h2, hcnt]
  · have hN : N.handles.count (Slot.live (some a))
        = M.handles.count (Slot.live (some a)) := by rw [hhs]; exact hcnt
    simp only [Memory.liveRefs, hN]; rw [hd, h3]

/-- An empty handle adopts `a`, which some handle still holds, with one
increment. -/
theorem balanced_adopt {a w h : Nat} {M N : Memory} (hM : Balanced a M)
    (hh : M.handles[h]? = some (Slot.live none)) (hpos : 1 ≤ M.ref_count a)
    (hlen : M.handles.length < 2 ^ w)
    (hrc : N.ref_count a = (M.ref_count a + 1) % 2 ^ w) (hd : N.deleted = M.deleted)
    (hhs : N.handles = M.handles.set h (Slot.live (some a))) : Balanced a N := by
  obtain ⟨h1, h2, h3⟩ := hM
  have hcnt := count_set_add M.handles h (Slot.live none) (Slot.live (some a))
    (Slot.live (some a)) hh
  have hle : (M.handles.set h (Slot.live (some a))).count (Slot.live (some a))
      ≤ (M.handles.set h (Slot.live (some a))).length := List.count_le_length _ _
  rw [List.length_set] at hle
  simp at hcnt
  simp only [Memory.liveRefs] at h2 h3
  refine ⟨?_, ?_, ?_⟩
  · intro t ht
    rw [hhs] at ht
    rcases List.mem_or_eq_of_mem_set ht with ht | rfl
    · exact h1 t ht
    · simp
  · simp only [Memory.liveRefs]
    rw [hrc, hhs, h2, hcnt, Nat.mod_eq_of_lt (by omega)]
  · have hN : N.handles.count (Slot.live (some a))
        = M.handles.count (Slot.live (some a)) + 1 := by rw [hhs]; exact hcnt
    simp only [Memory.liveRefs, hN]
    rw [hd, h3, if_neg (by omega), if_neg (by omega)]

/-- A new empty handle. -/
theorem balanced_append_null {a : Nat} {M N : Memory} (hM : Balanced a M)
    (hrc : N.ref_count a = M.ref_count a) (hd : N.deleted = M.deleted)
    (hhs : N.handles = M.handles ++ [Slot.live none]) : Balanced a N := by
  obtain ⟨h1, h2, h3⟩ := hM
  simp only [Memory.liveRefs] at h2 h3
  refine ⟨?_, ?_, ?_⟩
  · intro t ht
    rw [hhs] at ht
    rcases List.mem_append.mp ht with ht | ht
    · exact h1 t ht
    · simp at ht; simp [ht]
  · simp only [Memory.liveRefs]; rw [hrc, hhs, h2]; simp
  · have hN : N.handles.count (Slot.live (some a))
        = M.handles.count (Slot.live (some a)) := by rw [hhs]; simp
    simp only [Memory.liveRefs, hN]; rw [hd, h3]

/-- The reference of a handle that holds `a` moves to an empty handle. -/
theorem balanced_move {a t o : Nat} {M N : Memory} (hM : Balanced a M)
    (ht : M.handles[t]? = some (Slot.live none))
    (ho : M.handles[o]? = some (Slot.live (some a)))
    (hrc : N.ref_count a = M.ref_count a) (hd : N.deleted = M.deleted)
    (hhs : N.handles = (M.handles.set t (Slot.live (some a))).set o (Slot.live none)) :
    Balanced a N := by
  obtain ⟨h1, h2, h3⟩ := hM
  have hto : t ≠ o := by
    intro h; rw [h, ho] at ht; cases ht
  have c1 := count_set_add M.handles t (Slot.live none) (Slot.live (some a))
    (Slot.live (some a)) ht
  have ho' : (M.handles.set t (Slot.live (some a)))[o]? = some (Slot.live (some a)) := by
    rw [List.getElem?_set_ne hto]; exact ho
  have c2 := count_set_add (M.handles.set t (Slot.live (some a))) o (Slot.live (some a))
    (Slot.live none) (Slot.live (some a)) ho'
  simp at c1 c2
  simp only [Memory.liveRefs] at h2 h3
  have hcnt : ((M.handles.set t (Slot.live (some a))).set o (Slot.live none)).count
      (Slot.live (some a)) = M.handles.count (Slot.live (some a)) := by omega
  refine ⟨?_, ?_, ?_⟩
  · intro s hs
    rw [hhs] at hs
    rcases List.mem_or_eq_of_mem_set hs with hs | rfl
    · rcases List.mem_or_eq_of_mem_set hs with hs | rfl
      · exact h1 s hs
      · simp
    · simp
  · simp only [Memory.liveRefs]; rw [hrc, hhs, h2, hcnt]
  · have hN : N.handles.count (Slot.live (some a))
        = M.handles.count (Slot.live (some a)) := by rw [hhs]; exact hcnt
    simp only [Memory.liveRefs, hN]; rw [hd, h3]

end balance

section balance_steps

open ref_count_base ref_count_ptr

theorem set_of_getElem? (l : List Slot) (i : Nat) (x : Slot) (h : l[i]? = some x) :
    l.set i x = l := by
  induction l generalizing i with
  | nil => rfl
  | cons y l ih =>
    cases i with
    | zero =>
      simp only [List.getElem?_cons_zero, Option.some.injEq] at h
      simp [h]
    | succ i =>
      simp only [List.getElem?_cons_succ] at h
      simp [ih i h]

theorem Balanced.p_cases {a h : Nat} {M : Memory} (hM : Balanced a M)
    (hl : M.isLive h = true) : M.p h = none ∨ M.p h = some a := by
  have hh := Memory.handles_of_isLive hl
  rcases hM.1 _ (List.getElem?_mem hh) with h0 | h0 | h0
  · cases h0
  · injection h0 with h0; exact Or.inl h0
  · injection h0 with h0; exact Or.inr h0

theorem Balanced.ref_count_pos {a h : Nat} {M : Memory} (hM : Balanced a M)
    (hh : M.handles[h]? = some (Slot.live (some a))) : 1 ≤ M.ref_count a := by
  rw [hM.2.1]; exact count_pos_of_getElem? hh

theorem add_ref_ref_count_self (w a n : Nat) (M : Memory) :
    (add_ref w a n M).ref_count a = (M.ref_count a + n) % 2 ^ w := by
  simp [add_ref]

/-- Lines 82-85 and 93-96, the first half of both assignment operators. -/
theorem balanced_release {a w this : Nat} {M : Memory} (hM : Balanced a M)
    (hl : M.isLive this = true) (hlen : M.handles.length < 2 ^ w) :
    Balanced a (match M.p this with
      | some b => (remove_ref w b 1 M).set_p this none
      | none => M) ∧
    (match M.p this with
      | some b => (remove_ref w b 1 M).set_p this none
      | none => M).handles = M.handles.set this (Slot.live none) := by
  have hh := Memory.handles_of_isLive hl
  rcases hM.p_cases hl with hq | hq
  · rw [hq] at hh
    simp only [hq]
    exact ⟨hM, (set_of_getElem? _ _ _ hh).symm⟩
  · rw [hq] at hh
    simp only [hq]
    refine ⟨balanced_drop hM hh hlen (Or.inr rfl) ?_ ?_ ?_, ?_⟩
    · show (remove_ref w a 1 M).ref_count a = _
      rw [remove_ref_ref_count, if_pos rfl]
    · show (remove_ref w a 1 M).deleted = _
      rw [remove_ref_deleted]
    · show (remove_ref w a 1 M).handles.set this (Slot.live none) = _
      rw [remove_ref_handles]
    · show (remove_ref w a 1 M).handles.set this (Slot.live none) = _
      rw [remove_ref_handles]

end balance_steps

section balance_ops

open ref_count_base ref_count_ptr

theorem balanced_copy_construct {a w other : Nat} {M : Memory} (hM : Balanced a M)
    (hl : M.isLive other = true) (hlen : M.handles.length + 1 < 2 ^ w) :
    Balanced a (copy_construct w other M) := by
  have hh := Memory.handles_of_isLive hl
  have hlt := Memory.lt_length_of_handles hh
  have h0 : Balanced a (from_raw none M) := balanced_append_null hM rfl rfl rfl
  rcases hM.p_cases hl with hq | hq
  · simp only [copy_construct, hq]; exact h0
  · rw [hq] at hh
    simp only [copy_construct, hq]
    refine balanced_adopt (w := w) (h := M.handles.length) h0 ?_ ?_ ?_
      (add_ref_ref_count_self w a 1 _) rfl ?_
    · simp [from_raw]
    · exact hM.ref_count_pos hh
    · simpa [from_raw] using hlen
    · simp [add_ref, from_raw]

theorem balanced_move_construct {a other : Nat} {M : Memory} (hM : Balanced a M)
    (hl : M.isLive other = true) : Balanced a (move_construct other M) := by
  have hh := Memory.handles_of_isLive hl
  have hlt := Memory.lt_length_of_handles hh
  have h0 : Balanced a (from_raw none M) := balanced_append_null hM rfl rfl rfl
  have hh0 : (from_raw none M).handles[other]? = some (Slot.live (M.p other)) := by
    simp only [from_raw]; rw [List.getElem?_append_left hlt]; exact hh
  rcases hM.p_cases hl with hq | hq
  · rw [hq] at hh0
    simp only [move_construct, hq]
    exact balanced_same h0 hh0 (Or.inr rfl) (Or.inr rfl) rfl rfl rfl
  · rw [hq] at hh0
    simp only [move_construct, hq]
    refine balanced_move (t := M.handles.length) (o := other) h0 ?_ hh0 rfl rfl ?_
    · simp [from_raw]
    · simp [Memory.set_p, from_raw]

theorem balanced_assign_nullptr {a w this : Nat} {M : Memory} (hM : Balanced a M)
    (hl : M.isLive this = true) (hlen : M.handles.length < 2 ^ w) :
    Balanced a (assign_nullptr w this M) := by
  have hh := Memory.handles_of_isLive hl
  rcases hM.p_cases hl with hq | hq
  · rw [hq] at hh
    simp only [assign_nullptr, hq]
    exact balanced_same hM hh (Or.inr rfl) (Or.inr rfl) rfl rfl rfl
  · rw [hq] at hh
    simp only [assign_nullptr, hq]
    refine balanced_drop hM hh hlen (Or.inr rfl) ?_ ?_ ?_
    · show (remove_ref w a 1 M).ref_count a = _
      rw [remove_ref_ref_count, if_pos rfl]
    · show (remove_ref w a 1 M).deleted = _
      rw [remove_ref_deleted]
    · show (remove_ref w a 1 M).handles.set this (Slot.live none) = _
      rw [remove_ref_handles]

theorem balanced_destroy {a w this : Nat} {M : Memory} (hM : Balanced a M)
    (hl : M.isLive this = true) (hlen : M.handles.length < 2 ^ w) :
    Balanced a (destroy w this M) := by
  have hh := Memory.handles_of_isLive hl
  rcases hM.p_cases hl with hq | hq
  · rw [hq] at hh
    simp only [destroy, hq]
    exact balanced_same hM hh (Or.inr rfl) (Or.inl rfl) rfl rfl rfl
  · rw [hq] at hh
    simp only [destroy, hq]
    refine balanced_drop hM hh hlen (Or.inl rfl) ?_ ?_ ?_
    · show (remove_ref w a 1 M).ref_count a = _
      rw [remove_ref_ref_count, if_pos rfl]
    · show (remove_ref w a 1 M).deleted = _
      rw [remove_ref_deleted]
    · show (remove_ref w a 1 M).handles.set this Slot.dead = _
      rw [remove_ref_handles]

/-- Liveness of the operands in the memory left by lines 82-85. -/
theorem released_handles {this other : Nat} {M M1 : Memory}
    (hl : M.isLive this = true) (hlo : M.isLive other = true)
    (h1 : M1.handles = M.handles.set this (Slot.live none)) :
    M1.handles[this]? = some (Slot.live none) ∧ M1.isLive other = true ∧
    M1.handles.length = M.handles.length := by
  have hh := Memory.handles_of_isLive hl
  have hho := Memory.handles_of_isLive hlo
  have hlt := Memory.lt_length_of_handles hh
  have hthis : M1.handles[this]? = some (Slot.live none) := by
    rw [h1, List.getElem?_set_self hlt]
  refine ⟨hthis, ?_, by rw [h1, List.length_set]⟩
  by_cases he : this = other
  · subst he; exact Memory.isLive_of_handles hthis
  · exact Memory.isLive_of_handles (q := M.p other)
      (by rw [h1, List.getElem?_set_ne he]; exact hho)

theorem balanced_copy_assign {a w this other : Nat} {M : Memory} (hM : Balanced a M)
    (hl : M.isLive this = true) (hlo : M.isLive other = true)
    (hlen : M.handles.length < 2 ^ w) : Balanced a (copy_assign w this other M) := by
  obtain ⟨hB1, hH1⟩ := balanced_release (w := w) hM hl hlen
  obtain ⟨M1, hM1⟩ : ∃ M1 : Memory, M1 = (match M.p this with
      | some b => (remove_ref w b 1 M).set_p this none
      | none => M) := ⟨_, rfl⟩
  rw [← hM1] at hB1 hH1
  obtain ⟨hthis, hlo1, hlen1⟩ := released_handles hl hlo hH1
  have hho1 := Memory.handles_of_isLive hlo1
  have hp2 : ∀ v, (M1.set_p this v).p this = v := fun v => Memory.set_p_p_self v hthis
  have hres : copy_assign w this other M
      = (match M1.p other with
        | some b => add_ref w b 1 (M1.set_p this (M1.p other))
        | none => M1.set_p this (M1.p other)) := by
    simp only [copy_assign, ← hM1, hp2]
  rw [hres]
  rcases hB1.p_cases hlo1 with hq | hq
  · simp only [hq]
    exact balanced_same hB1 hthis (Or.inr rfl) (Or.inr rfl) rfl rfl rfl
  · rw [hq] at hho1
    simp only [hq]
    exact balanced_adopt (w := w) hB1 hthis (hB1.ref_count_pos hho1) (by omega)
      (add_ref_ref_count_self w a 1 _) rfl rfl

theorem balanced_move_assign {a w this other : Nat} {M : Memory} (hM : Balanced a M)
    (hl : M.isLive this = true) (hlo : M.isLive other = true)
    (hlen : M.handles.length < 2 ^ w) : Balanced a (move_assign w this other M) := by
  obtain ⟨hB1, hH1⟩ := balanced_release (w := w) hM hl hlen
  obtain ⟨M1, hM1⟩ : ∃ M1 : Memory, M1 = (match M.p this with
      | some b => (remove_ref w b 1 M).set_p this none
      | none => M) := ⟨_, rfl⟩
  rw [← hM1] at hB1 hH1
  obtain ⟨hthis, hlo1, hlen1⟩ := released_handles hl hlo hH1
  have hho1 := Memory.handles_of_isLive hlo1
  have hres : move_assign w this other M
      = (M1.set_p this (M1.p other)).set_p other none := by
    simp only [move_assign, ← hM1]
  rw [hres]
  rcases hB1.p_cases hlo1 with hq | hq
  · rw [hq] at hho1 ⊢
    have hB2 : Balanced a (M1.set_p this none) :=
      balanced_same hB1 hthis (Or.inr rfl) (Or.inr rfl) rfl rfl rfl
    have hh2 : (M1.set_p this none).handles[other]? = some (Slot.live none) := by
      by_cases he : this = other
      · subst he; exact Memory.set_p_handles_self none hthis
      · rw [Memory.set_p_handles_ne _ none he]; exact hho1
    exact balanced_same hB2 hh2 (Or.inr rfl) (Or.inr rfl) rfl rfl rfl
  · rw [hq] at hho1 ⊢
    exact balanced_move hB1 hthis hho1 rfl rfl rfl

theorem Memory.set_p_length (M : Memory) (h : Nat) (v : Option Nat) :
    (M.set_p h v).handles.length = M.handles.length := by
  simp [Memory.set_p]

theorem add_ref_length (w a n : Nat) (M : Memory) :
    (add_ref w a n M).handles.length = M.handles.length := rfl

theorem exec_handles_length (w : Nat) (op : Op) (M M' : Memory)
    (h : op.exec w M = some M') : M'.handles.length ≤ M.handles.length + 1 := by
  have hrm : ∀ b, (match M.p b with
      | some c => (remove_ref w c 1 M).set_p b none
      | none => M).handles.length = M.handles.length := by
    intro b
    cases M.p b with
    | none => rfl
    | some c => simp [Memory.set_p, remove_ref_handles]
  have hrm' : ∀ b, (match M.p b with
      | some c => remove_ref w c 1 M
      | none => M).handles.length = M.handles.length := by
    intro b
    cases M.p b with
    | none => rfl
    | some c => simp [remove_ref_handles]
  cases op with
  | copy_construct other =>
    simp only [Op.exec] at h
    split at h
    · cases h
      simp only [copy_construct]
      cases M.p other <;> simp [from_raw, add_ref]
    · cases h
  | move_construct other =>
    simp only [Op.exec] at h
    split at h
    · cases h; simp [move_construct, from_raw, Memory.set_p]
    · cases h
  | copy_assign this other =>
    simp only [Op.exec] at h
    split at h
    · cases h
      simp only [copy_assign]
      split <;> simp only [add_ref_length, Memory.set_p_length, hrm] <;> omega
    · cases h
  | move_assign this other =>
    simp only [Op.exec] at h
    split at h
    · cases h
      simp only [move_assign, Memory.set_p_length, hrm]; omega
    · cases h
  | assign_nullptr this =>
    simp only [Op.exec] at h
    split at h
    · cases h
      simp only [assign_nullptr, Memory.set_p_length, hrm']; omega
    · cases h
  | destroy this =>
    simp only [Op.exec] at h
    split at h
    · cases h
      simp only [destroy, List.length_set, hrm']; omega
    · cases h

theorem exec_balanced (w a : Nat) (op : Op) (M M' : Memory) (hM : Balanced a M)
    (hlen : M.handles.length + 1 < 2 ^ w) (h : op.exec w M = some M') : Balanced a M' := by
  cases op with
  | copy_construct other =>
    simp only [Op.exec] at h
    split at h
    · rename_i hl; cases h; exact balanced_copy_construct hM hl hlen
    · cases h
  | move_construct other =>
    simp only [Op.exec] at h
    split at h
    · rename_i hl; cases h; exact balanced_move_construct hM hl
    · cases h
  | copy_assign this other =>
    simp only [Op.exec] at h
    split at h
    · rename_i hl; cases h
      simp only [Bool.and_eq_true] at hl
      exact balanced_copy_assign hM hl.1 hl.2 (by omega)
    · cases h
  | move_assign this other =>
    simp only [Op.exec] at h
    split at h
    · rename_i hl; cases h
      simp only [Bool.and_eq_true] at hl
      exact balanced_move_assign hM hl.1 hl.2 (by omega)
    · cases h
  | assign_nullptr this =>
    simp only [Op.exec] at h
    split at h
    · rename_i hl; cases h; exact balanced_assign_nullptr hM hl (by omega)
    · cases h
  | destroy this =>
    simp only [Op.exec] at h
    split at h
    · rename_i hl; cases h; exact balanced_destroy hM hl (by omega)
    · cases h

theorem run_ops_balanced (w a : Nat) (ops : List Op) : ∀ (M M' : Memory), Balanced a M →
    M.handles.length + ops.length < 2 ^ w → run_ops w ops M = some M' → Balanced a M' := by
  induction ops with
  | nil => intro M M' hM _ h; simp only [run_ops, Option.some.injEq] at h; exact h ▸ hM
  | cons op ops ih =>
    intro M M' hM hlen h
    simp only [List.length_cons] at hlen
    simp only [run_ops] at h
    cases hop : op.exec w M with
    | none => simp [hop] at h
    | some M1 =>
      simp only [hop] at h
      have hl1 := exec_handles_length w op M M1 hop
      exact ih M1 M' (exec_balanced w a op M M1 hM (by omega) hop) (by omega) h

end balance_ops

section ref_count_claims

open ref_count_base ref_count_ptr

/-- C4.  `remove_ref(n)` calls the deleter on the object exactly when the
count read by the decrement equals `n`; in every other case the deleter is
not called and the count becomes the previous count minus `n` modulo `2 ^ w`.
No other count and no handle changes.  For the default `n = 1` the deleter is
called exactly when the count goes from 1 to 0. -/
theorem remove_ref_destroys_iff (w this n : Nat) (M : Memory)
    (hc : M.ref_count this < 2 ^ w) (hn : n < 2 ^ w) :
    ((remove_ref w this n M).deleted = this :: M.deleted ↔ M.ref_count this = n) ∧
    ((remove_ref w this n M).deleted = M.deleted ↔ M.ref_count this ≠ n) ∧
    (M.ref_count this ≠ n →
      (((remove_ref w this n M).ref_count this : Nat) : Int)
        = ((M.ref_count this : Int) - (n : Int)) % ((2 ^ w : Nat) : Int)) ∧
    (∀ a, a ≠ this → (remove_ref w this n M).ref_count a = M.ref_count a) ∧
    (remove_ref w this n M).handles = M.handles ∧
    (1 < 2 ^ w →
      ((remove_ref w this 1 M).deleted = this :: M.deleted ↔
        M.ref_count this = 1 ∧ (remove_ref w this 1 M).ref_count this = 0)) := by
  refine ⟨?_, ?_, ?_, ?_, remove_ref_handles w this n M, ?_⟩
  · rw [remove_ref_deleted]
    by_cases h : M.ref_count this = n
    · simp [h]
    · simp [h, (List.cons_ne_self this M.deleted).symm]
  · rw [remove_ref_deleted]
    by_cases h : M.ref_count this = n
    · simp [h]
    · simp [h]
  · intro _
    rw [remove_ref_ref_count, if_pos rfl]
    exact fetch_sub_value w _ n hc hn
  · intro a ha
    rw [remove_ref_ref_count, if_neg ha]
  · intro hw
    rw [remove_ref_deleted, remove_ref_ref_count, if_pos rfl]
    by_cases h : M.ref_count this = 1
    · simp [h, fetch_sub_one w 1 (le_refl 1) hw]
    · simp [h, (List.cons_ne_self this M.deleted).symm]

/-- Witness of C4: a count of 3 decremented by 3 on a 64-bit `std::size_t`. -/
theorem remove_ref_destroys_iff_witness :
    (initial_memory 0 3).ref_count 0 < 2 ^ 64 ∧ 3 < 2 ^ 64 ∧
    (((remove_ref 64 0 3 (initial_memory 0 3)).deleted = 0 :: (initial_memory 0 3).deleted ↔
        (initial_memory 0 3).ref_count 0 = 3) ∧
    ((remove_ref 64 0 3 (initial_memory 0 3)).deleted = (initial_memory 0 3).deleted ↔
        (initial_memory 0 3).ref_count 0 ≠ 3) ∧
    ((initial_memory 0 3).ref_count 0 ≠ 3 →
      (((remove_ref 64 0 3 (initial_memory 0 3)).ref_count 0 : Nat) : Int)
        = (((initial_memory 0 3).ref_count 0 : Int) - (3 : Int)) % ((2 ^ 64 : Nat) : Int)) ∧
    (∀ a, a ≠ 0 →
      (remove_ref 64 0 3 (initial_memory 0 3)).ref_count a = (initial_memory 0 3).ref_count a) ∧
    (remove_ref 64 0 3 (initial_memory 0 3)).handles = (initial_memory 0 3).handles ∧
    (1 < 2 ^ 64 →
      ((remove_ref 64 0 1 (initial_memory 0 3)).deleted = 0 :: (initial_memory 0 3).deleted ↔
        (initial_memory 0 3).ref_count 0 = 1 ∧
          (remove_ref 64 0 1 (initial_memory 0 3)).ref_count 0 = 0))) :=
  ⟨by decide, by decide,
    remove_ref_destroys_iff 64 0 3 (initial_memory 0 3) (by decide) (by decide)⟩

/-- C5, refuted as stated: `h = h` on the only handle of an object of count 1
leaves `h` empty, the count 0 and the deleter called; on one of two handles
of an object of count 2 it leaves `h` empty and the count 1. -/
theorem self_copy_assign_counterexample :
    ((initial_memory 0 1).p 0 = some 0 ∧ (initial_memory 0 1).ref_count 0 = 1 ∧
      (copy_assign 64 0 0 (initial_memory 0 1)).p 0 = none ∧
      (copy_assign 64 0 0 (initial_memory 0 1)).ref_count 0 = 0 ∧
      (copy_assign 64 0 0 (initial_memory 0 1)).deleted = [0]) ∧
    ((initial_memory 0 2).p 0 = some 0 ∧ (initial_memory 0 2).ref_count 0 = 2 ∧
      (copy_assign 64 0 0 (initial_memory 0 2)).p 0 = none ∧
      (copy_assign 64 0 0 (initial_memory 0 2)).ref_count 0 = 1 ∧
      (copy_assign 64 0 0 (initial_memory 0 2)).deleted = []) := by
  decide

/-- C5 as amended.  For a non-empty handle `h` over an object of count
`c >= 1`, `h = h` performs the decrement of lines 83-84 and then reads
`other.p`, which is now null: `h` is left live and empty, the count is
`c - 1`, the deleter is called exactly when `c = 1`, no increment follows (so
a destroyed object is not touched again), the number of non-empty handles of
the object drops by one together with the count, and no other count or
handle changes. -/
theorem self_copy_assign_releases (w h a : Nat) (M : Memory)
    (hp : M.p h = some a) (h1 : 1 ≤ M.ref_count a) (hc : M.ref_count a < 2 ^ w) :
    (copy_assign w h h M).isLive h = true ∧
    (copy_assign w h h M).p h = none ∧
    (copy_assign w h h M).ref_count a = M.ref_count a - 1 ∧
    (copy_assign w h h M).deleted
      = (if M.ref_count a = 1 then a :: M.deleted else M.deleted) ∧
    (copy_assign w h h M).liveRefs a + 1 = M.liveRefs a ∧
    (∀ b, b ≠ a → (copy_assign w h h M).ref_count b = M.ref_count b) ∧
    (∀ k, k ≠ h → (copy_assign w h h M).handles[k]? = M.handles[k]?) := by
  have hh := Memory.handles_of_p hp
  have hh1 : ((remove_ref w a 1 M).set_p h none).handles[h]? = some (Slot.live none) :=
    Memory.set_p_handles_self none (by rw [remove_ref_handles]; exact hh)
  have hp1 : ((remove_ref w a 1 M).set_p h none).p h = none := Memory.p_of_handles hh1
  have hp2 : (((remove_ref w a 1 M).set_p h none).set_p h none).p h = none :=
    Memory.set_p_p_self none hh1
  have hres : copy_assign w h h M = ((remove_ref w a 1 M).set_p h none).set_p h none := by
    simp only [copy_assign, hp, hp1, hp2]
  rw [hres]
  refine ⟨?_, hp2, ?_, ?_, ?_, ?_, ?_⟩
  · exact Memory.isLive_of_handles (Memory.set_p_handles_self none hh1)
  · show (remove_ref w a 1 M).ref_count a = _
    rw [remove_ref_ref_count, if_pos rfl, fetch_sub_one w _ h1 hc]
  · show (remove_ref w a 1 M).deleted = _
    rw [remove_ref_deleted]
  · have e2 := count_set_add M.handles h (Slot.live (some a)) (Slot.live none)
      (Slot.live (some a)) hh
    simp only [Memory.liveRefs, Memory.set_p, remove_ref_handles, List.set_set]
    simp at e2
    omega
  · intro b hb
    show (remove_ref w a 1 M).ref_count b = _
    rw [remove_ref_ref_count, if_neg hb]
  · intro k hk
    rw [Memory.set_p_handles_ne _ none (Ne.symm hk), Memory.set_p_handles_ne _ none (Ne.symm hk),
      remove_ref_handles]

/-- Witness of C5 as amended: one of two handles of an object of count 2. -/
theorem self_copy_assign_releases_witness :
    (initial_memory 0 2).p 0 = some 0 ∧ 1 ≤ (initial_memory 0 2).ref_count 0 ∧
    (initial_memory 0 2).ref_count 0 < 2 ^ 64 ∧
    ((copy_assign 64 0 0 (initial_memory 0 2)).isLive 0 = true ∧
    (copy_assign 64 0 0 (initial_memory 0 2)).p 0 = none ∧
    (copy_assign 64 0 0 (initial_memory 0 2)).ref_count 0
      = (initial_memory 0 2).ref_count 0 - 1 ∧
    (copy_assign 64 0 0 (initial_memory 0 2)).deleted
      = (if (initial_memory 0 2).ref_count 0 = 1 then 0 :: (initial_memory 0 2).deleted
          else (initial_memory 0 2).deleted) ∧
    (copy_assign 64 0 0 (initial_memory 0 2)).liveRefs 0 + 1 = (initial_memory 0 2).liveRefs 0 ∧
    (∀ b, b ≠ 0 →
      (copy_assign 64 0 0 (initial_memory 0 2)).ref_count b = (initial_memory 0 2).ref_count b) ∧
    (∀ k, k ≠ 0 →
      (copy_assign 64 0 0 (initial_memory 0 2)).handles[k]? = (initial_memory 0 2).handles[k]?)) :=
  ⟨by decide, by decide, by decide,
    self_copy_assign_releases 64 0 0 (initial_memory 0 2) (by decide) (by decide) (by decide)⟩

/-- C6.  Copy-assignment `x = y` between two distinct live handles, in a
memory where the count of each referent covers the handles among `x`, `y`
that hold it.  Afterwards both handles hold what `y` held; the former
referent of `x` has received one decrement and is destroyed exactly when its
count was 1 and `y` does not hold it; the referent of `y` has received one
increment; when both held the same object its count is unchanged and it is
not destroyed; no other count and no other handle changes. -/
theorem copy_assign_distinct (w x y : Nat) (M : Memory)
    (hxy : x ≠ y) (hx : M.isLive x = true) (hy : M.isLive y = true)
    (hcx : ∀ o, M.p x = some o → 1 ≤ M.ref_count o ∧ M.ref_count o < 2 ^ w)
    (hcy : ∀ o, M.p y = some o → M.ref_count o < 2 ^ w)
    (hshared : ∀ o, M.p x = some o → M.p y = some o → 2 ≤ M.ref_count o) :
    (copy_assign w x y M).p x = M.p y ∧ (copy_assign w x y M).p y = M.p y ∧
    (copy_assign w x y M).isLive x = true ∧ (copy_assign w x y M).isLive y = true ∧
    (∀ o, M.p x = some o → M.p y ≠ some o →
      (copy_assign w x y M).ref_count o = M.ref_count o - 1) ∧
    (∀ o, M.p x ≠ some o → M.p y = some o →
      (copy_assign w x y M).ref_count o = (M.ref_count o + 1) % 2 ^ w) ∧
    (∀ o, M.p x = some o → M.p y = some o →
      (copy_assign w x y M).ref_count o = M.ref_count o) ∧
    (∀ o, M.p x ≠ some o → M.p y ≠ some o →
      (copy_assign w x y M).ref_count o = M.ref_count o) ∧
    (copy_assign w x y M).deleted
      = (match M.p x with
        | some o => if M.ref_count o = 1 ∧ M.p y ≠ some o then o :: M.deleted else M.deleted
        | none => M.deleted) ∧
    (∀ k, k ≠ x → (copy_assign w x y M).handles[k]? = M.handles[k]?) := by
  have hhx := Memory.handles_of_isLive hx
  have hhy := Memory.handles_of_isLive hy
  -- the memory after lines 82-85
  obtain ⟨M1, hM1, h1x, h1y, h1h⟩ : ∃ M1 : Memory,
      M1 = (match M.p x with
        | some a => (remove_ref w a 1 M).set_p x none
        | none => M) ∧
      M1.handles[x]? = some (Slot.live none) ∧ M1.p y = M.p y ∧
      (∀ k, k ≠ x → M1.handles[k]? = M.handles[k]?) := by
    refine ⟨_, rfl, ?_, ?_, ?_⟩
    · cases hpx : M.p x with
      | none => simpa [hpx] using hhx
      | some a =>
        exact Memory.set_p_handles_self none (by rw [remove_ref_handles]; exact hhx)
    · cases hpx : M.p x with
      | none => rfl
      | some a =>
        show ((remove_ref w a 1 M).set_p x none).p y = _
        rw [Memory.set_p_p_ne _ none hxy, Memory.p_congr (remove_ref_handles w a 1 M)]
    · intro k hk
      cases hpx : M.p x with
      | none => rfl
      | some a =>
        show ((remove_ref w a 1 M).set_p x none).handles[k]? = _
        rw [Memory.set_p_handles_ne _ none (Ne.symm hk), remove_ref_handles]
  have h1rc : ∀ b, M1.ref_count b
      = (match M.p x with
        | some a => if b = a then M.ref_count a - 1 else M.ref_count b
        | none => M.ref_count b) := by
    intro b
    rw [hM1]
    cases hpx : M.p x with
    | none => rfl
    | some a =>
      show (remove_ref w a 1 M).ref_count b = _
      rw [remove_ref_ref_count]
      by_cases hb : b = a
      · simp only [hb, if_true]
        exact fetch_sub_one w _ (hcx a hpx).1 (hcx a hpx).2
      · simp only [hb, if_false]
  have h1d : M1.deleted
      = (match M.p x with
        | some a => if M.ref_count a = 1 then a :: M.deleted else M.deleted
        | none => M.deleted) := by
    rw [hM1]
    cases hpx : M.p x with
    | none => rfl
    | some a =>
      show (remove_ref w a 1 M).deleted = _
      rw [remove_ref_deleted]
  -- the memory after line 86
  have h2x : (M1.set_p x (M1.p y)).handles[x]? = some (Slot.live (M.p y)) := by
    rw [Memory.set_p_handles_self _ h1x, h1y]
  have h2p : (M1.set_p x (M1.p y)).p x = M.p y := Memory.p_of_handles h2x
  have h2y : (M1.set_p x (M1.p y)).handles[y]? = some (Slot.live (M.p y)) := by
    rw [Memory.set_p_handles_ne _ _ hxy, h1h y (Ne.symm hxy)]; exact hhy
  have hres : copy_assign w x y M
      = (match M.p y with
        | some a => add_ref w a 1 (M1.set_p x (M1.p y))
        | none => M1.set_p x (M1.p y)) := by
    simp only [copy_assign, ← hM1, h2p]
  have hresh : (copy_assign w x y M).handles = (M1.set_p x (M1.p y)).handles := by
    rw [hres]; cases M.p y <;> rfl
  have hresd : (copy_assign w x y M).deleted = M1.deleted := by
    rw [hres]; cases M.p y <;> rfl
  have hresrc : ∀ b, (copy_assign w x y M).ref_count b
      = (match M.p y with
        | some a => if b = a then (M1.ref_count a + 1) % 2 ^ w else M1.ref_count b
        | none => M1.ref_count b) := by
    intro b; rw [hres]; cases M.p y <;> rfl
  refine ⟨?_, ?_, ?_, ?_, ?_, ?_, ?_, ?_, ?_, ?_⟩
  · rw [Memory.p_congr hresh]; exact h2p
  · rw [Memory.p_congr hresh]; exact Memory.p_of_handles h2y
  · exact Memory.isLive_of_handles (by rw [hresh]; exact h2x)
  · exact Memory.isLive_of_handles (by rw [hresh]; exact h2y)
  · intro o hox hoy
    simp only [hresrc, h1rc, hox]
    cases hpy : M.p y with
    | none => simp
    | some a =>
      have hne : o ≠ a := fun h => hoy (by rw [hpy, h])
      simp [hne]
  · intro o hox hoy
    simp only [hresrc, h1rc, hoy]
    cases hpx : M.p x with
    | none => simp
    | some a =>
      have hne : o ≠ a := fun h => hox (by rw [hpx, h])
      simp [hne]
  · intro o hox hoy
    simp only [hresrc, h1rc, hox, hoy]
    have h2 := hshared o hox hoy
    have h3 := hcy o hoy
    simp only [if_true]
    rw [Nat.sub_add_cancel (by omega), Nat.mod_eq_of_lt h3]
  · intro o hox hoy
    simp only [hresrc, h1rc]
    cases hpy : M.p y with
    | none =>
      cases hpx : M.p x with
      | none => rfl
      | some a =>
        have hne : o ≠ a := fun h => hox (by rw [hpx, h])
        simp [hne]
    | some b =>
      have hnb : o ≠ b := fun h => hoy (by rw [hpy, h])
      cases hpx : M.p x with
      | none => simp [hnb]
      | some a =>
        have hne : o ≠ a := fun h => hox (by rw [hpx, h])
        simp [hnb, hne]
  · rw [hresd, h1d]
    cases hpx : M.p x with
    | none => rfl
    | some a =>
      by_cases hc1 : M.ref_count a = 1
      · have hny : M.p y ≠ some a := by
          intro hpy
          have := hshared a hpx hpy
          omega
        simp [hc1, hny]
      · simp [hc1]
  · intro k hk
    rw [hresh, Memory.set_p_handles_ne _ _ (Ne.symm hk), h1h k hk]

/-- Witness of C6: in the memory of two objects of count 1, handle 0 (holding
object 0) is assigned handle 1 (holding object 1). -/
theorem copy_assign_distinct_witness :
    (0 : Nat) ≠ 1 ∧ two_object_memory.isLive 0 = true ∧ two_object_memory.isLive 1 = true ∧
    (∀ o, two_object_memory.p 0 = some o →
      1 ≤ two_object_memory.ref_count o ∧ two_object_memory.ref_count o < 2 ^ 64) ∧
    (∀ o, two_object_memory.p 1 = some o → two_object_memory.ref_count o < 2 ^ 64) ∧
    (∀ o, two_object_memory.p 0 = some o → two_object_memory.p 1 = some o →
      2 ≤ two_object_memory.ref_count o) ∧
    ((copy_assign 64 0 1 two_object_memory).p 0 = two_object_memory.p 1 ∧
    (copy_assign 64 0 1 two_object_memory).p 1 = two_object_memory.p 1 ∧
    (copy_assign 64 0 1 two_object_memory).isLive 0 = true ∧
    (copy_assign 64 0 1 two_object_memory).isLive 1 = true ∧
    (∀ o, two_object_memory.p 0 = some o → two_object_memory.p 1 ≠ some o →
      (copy_assign 64 0 1 two_object_memory).ref_count o = two_object_memory.ref_count o - 1) ∧
    (∀ o, two_object_memory.p 0 ≠ some o → two_object_memory.p 1 = some o →
      (copy_assign 64 0 1 two_object_memory).ref_count o
        = (two_object_memory.ref_count o + 1) % 2 ^ 64) ∧
    (∀ o, two_object_memory.p 0 = some o → two_object_memory.p 1 = some o →
      (copy_assign 64 0 1 two_object_memory).ref_count o = two_object_memory.ref_count o) ∧
    (∀ o, two_object_memory.p 0 ≠ some o → two_object_memory.p 1 ≠ some o →
      (copy_assign 64 0 1 two_object_memory).ref_count o = two_object_memory.ref_count o) ∧
    (copy_assign 64 0 1 two_object_memory).deleted
      = (match two_object_memory.p 0 with
        | some o =>
          if two_object_memory.ref_count o = 1 ∧ two_object_memory.p 1 ≠ some o
          then o :: two_object_memory.deleted else two_object_memory.deleted
        | none => two_object_memory.deleted) ∧
    (∀ k, k ≠ 0 →
      (copy_assign 64 0 1 two_object_memory).handles[k]? = two_object_memory.handles[k]?)) :=
  have hp0 : two_object_memory.p 0 = some 0 := rfl
  have hp1 : two_object_memory.p 1 = some 1 := rfl
  have h1 : ∀ o, two_object_memory.p 0 = some o →
      1 ≤ two_object_memory.ref_count o ∧ two_object_memory.ref_count o < 2 ^ 64 := by
    intro o ho
    rw [hp0] at ho
    cases ho
    decide
  have h2 : ∀ o, two_object_memory.p 1 = some o → two_object_memory.ref_count o < 2 ^ 64 := by
    intro o ho
    rw [hp1] at ho
    cases ho
    decide
  have h3 : ∀ o, two_object_memory.p 0 = some o → two_object_memory.p 1 = some o →
      2 ≤ two_object_memory.ref_count o := by
    intro o ho ho'
    rw [hp0] at ho
    rw [hp1] at ho'
    cases ho
    cases ho'
  ⟨by decide, rfl, rfl, h1, h2, h3,
    copy_assign_distinct 64 0 1 two_object_memory (by decide) rfl rfl h1 h2 h3⟩

/-- C3 (handle/count balance, sequential).  Starting from `n >= 1` live
handles that all hold the object at `a`, whose count is `n`, after every
sequence of copy-construct, move-construct, copy-assign, move-assign,
assign-from-nullptr and destroy operations on live handle variables
(operands may coincide) that keeps the number of handle variables below
`2 ^ w`: the count of the object equals the number of live handles holding
it; while a handle holds it the deleter has not been called; and once no
handle holds it the deleter has been called exactly once.  As this holds
after every prefix of the sequence, the one deleter call happens at the
operation that retires the last holding handle. -/
theorem handle_count_balance (w a n : Nat) (ops : List Op) (M : Memory)
    (hn : 0 < n) (hbound : n + ops.length < 2 ^ w)
    (hrun : run_ops w ops (initial_memory a n) = some M) :
    M.ref_count a = M.liveRefs a ∧
    (M.liveRefs a ≠ 0 → M.deleteCount a = 0 ∧ M.deleted = []) ∧
    (M.liveRefs a = 0 → M.deleteCount a = 1 ∧ M.deleted = [a]) := by
  have hB := run_ops_balanced w a ops (initial_memory a n) M (balanced_initial a n hn)
    (by simpa [initial_memory] using hbound) hrun
  obtain ⟨_, h2, h3⟩ := hB
  refine ⟨h2, ?_, ?_⟩
  · intro hk
    rw [if_neg hk] at h3
    simp [Memory.deleteCount, h3]
  · intro hk
    rw [if_pos hk] at h3
    simp [Memory.deleteCount, h3]

/-- Witness of C3: two handles; a third is copy-constructed, handle 0 is
copy-assigned to itself, handle 1 is move-assigned to itself, and handle 2,
the last one holding the object, is destroyed. -/
theorem handle_count_balance_witness :
    0 < 2 ∧ 2 + [Op.copy_construct 0, Op.copy_assign 0 0, Op.move_assign 1 1,
      Op.destroy 2].length < 2 ^ 64 ∧
    run_ops 64 [Op.copy_construct 0, Op.copy_assign 0 0, Op.move_assign 1 1, Op.destroy 2]
        (initial_memory 0 2)
      = some (destroy 64 2 (move_assign 64 1 1 (copy_assign 64 0 0
          (copy_construct 64 0 (initial_memory 0 2))))) ∧
    ((destroy 64 2 (move_assign 64 1 1 (copy_assign 64 0 0
        (copy_construct 64 0 (initial_memory 0 2))))).ref_count 0
      = (destroy 64 2 (move_assign 64 1 1 (copy_assign 64 0 0
        (copy_construct 64 0 (initial_memory 0 2))))).liveRefs 0 ∧
    ((destroy 64 2 (move_assign 64 1 1 (copy_assign 64 0 0
        (copy_construct 64 0 (initial_memory 0 2))))).liveRefs 0 ≠ 0 →
      (destroy 64 2 (move_assign 64 1 1 (copy_assign 64 0 0
        (copy_construct 64 0 (initial_memory 0 2))))).deleteCount 0 = 0 ∧
      (destroy 64 2 (move_assign 64 1 1 (copy_assign 64 0 0
        (copy_construct 64 0 (initial_memory 0 2))))).deleted = []) ∧
    ((destroy 64 2 (move_assign 64 1 1 (copy_assign 64 0 0
        (copy_construct 64 0 (initial_memory 0 2))))).liveRefs 0 = 0 →
      (destroy 64 2 (move_assign 64 1 1 (copy_assign 64 0 0
        (copy_construct 64 0 (initial_memory 0 2))))).deleteCount 0 = 1 ∧
      (destroy 64 2 (move_assign 64 1 1 (copy_assign 64 0 0
        (copy_construct 64 0 (initial_memory 0 2))))).deleted = [0])) :=
  ⟨by decide, by decide, rfl,
    handle_count_balance 64 0 2
      [Op.copy_construct 0, Op.copy_assign 0 0, Op.move_assign 1 1, Op.destroy 2]
      (destroy 64 2 (move_assign 64 1 1 (copy_assign 64 0 0
        (copy_construct 64 0 (initial_memory 0 2)))))
      (by decide) (by decide) rfl⟩

end ref_count_claims

section count_claims

open ref_count_base ref_count_ptr

theorem add_sub_mod (K c n : Nat) (hc : c < K) (hn : n < K) :
    ((c + n) % K + (K - n)) % K = c := by
  by_cases h : c + n < K
  · rw [Nat.mod_eq_of_lt h]
    have e : c + n + (K - n) = c + K := by omega
    rw [e, Nat.add_mod_right, Nat.mod_eq_of_lt hc]
  · have e1 : (c + n) % K = c + n - K := by
      rw [Nat.mod_eq_sub_mod (by omega), Nat.mod_eq_of_lt (by omega)]
    rw [e1]
    have e : c + n - K + (K - n) = c := by omega
    rw [e, Nat.mod_eq_of_lt hc]

theorem add_mod_ne (K c n : Nat) (h1 : 1 ≤ c) (hc : c < K) (hn : n < K) :
    (c + n) % K ≠ n := by
  by_cases h : c + n < K
  · rw [Nat.mod_eq_of_lt h]; omega
  · have e1 : (c + n) % K = c + n - K := by
      rw [Nat.mod_eq_sub_mod (by omega), Nat.mod_eq_of_lt (by omega)]
    rw [e1]; omega

/-- C17.  `add_ref_unlocked()` and `add_ref(1)` are the same function on the
memory: the count of the object becomes the previous count plus one modulo
`2 ^ w`, and no other count, no deleter call and no handle changes. -/
theorem add_ref_unlocked_eq_add_ref (w this : Nat) (M : Memory) :
    add_ref_unlocked w this M = add_ref w this 1 M ∧
    (add_ref_unlocked w this M).ref_count this = (M.ref_count this + 1) % 2 ^ w ∧
    (add_ref w this 1 M).ref_count this = (M.ref_count this + 1) % 2 ^ w ∧
    (∀ a, a ≠ this → (add_ref_unlocked w this M).ref_count a = M.ref_count a) ∧
    (add_ref_unlocked w this M).deleted = M.deleted ∧
    (add_ref_unlocked w this M).handles = M.handles := by
  refine ⟨rfl, ?_, ?_, ?_, rfl, rfl⟩
  · simp [add_ref_unlocked]
  · simp [add_ref]
  · intro a ha
    simp [add_ref_unlocked, ha]

/-- C19.  For an object of count `c` with `1 <= c < 2 ^ w` and every `n` of
type `std::size_t`, also when `c + n` wraps around, `add_ref(n)` followed by
`remove_ref(n)` leaves the count `c` and does not call the deleter; no other
count and no handle changes. -/
theorem add_ref_remove_ref_identity (w this n : Nat) (M : Memory)
    (h1 : 1 ≤ M.ref_count this) (hc : M.ref_count this < 2 ^ w) (hn : n < 2 ^ w) :
    (remove_ref w this n (add_ref w this n M)).ref_count this = M.ref_count this ∧
    (remove_ref w this n (add_ref w this n M)).deleted = M.deleted ∧
    (∀ a, (remove_ref w this n (add_ref w this n M)).ref_count a = M.ref_count a) ∧
    (remove_ref w this n (add_ref w this n M)).handles = M.handles := by
  have hrc : (add_ref w this n M).ref_count this = (M.ref_count this + n) % 2 ^ w := by
    simp [add_ref]
  have hself : (remove_ref w this n (add_ref w this n M)).ref_count this
      = M.ref_count this := by
    rw [remove_ref_ref_count, if_pos rfl, hrc]
    exact add_sub_mod _ _ _ hc hn
  refine ⟨hself, ?_, ?_, ?_⟩
  · rw [remove_ref_deleted, hrc, if_neg (add_mod_ne _ _ _ h1 hc hn)]
    rfl
  · intro a
    by_cases ha : a = this
    · rw [ha]; exact hself
    · rw [remove_ref_ref_count, if_neg ha]
      simp [add_ref, ha]
  · rw [remove_ref_handles]; rfl

/-- Witness of C19: a count of 3 and `n = 2 ^ 64 - 1` on a 64-bit
`std::size_t`, where `3 + n` wraps around. -/
theorem add_ref_remove_ref_identity_witness :
    1 ≤ (initial_memory 0 3).ref_count 0 ∧ (initial_memory 0 3).ref_count 0 < 2 ^ 64 ∧
    2 ^ 64 - 1 < 2 ^ 64 ∧ 2 ^ 64 ≤ (initial_memory 0 3).ref_count 0 + (2 ^ 64 - 1) ∧
    ((remove_ref 64 0 (2 ^ 64 - 1) (add_ref 64 0 (2 ^ 64 - 1) (initial_memory 0 3))).ref_count 0
      = (initial_memory 0 3).ref_count 0 ∧
    (remove_ref 64 0 (2 ^ 64 - 1) (add_ref 64 0 (2 ^ 64 - 1) (initial_memory 0 3))).deleted
      = (initial_memory 0 3).deleted ∧
    (∀ a, (remove_ref 64 0 (2 ^ 64 - 1)
        (add_ref 64 0 (2 ^ 64 - 1) (initial_memory 0 3))).ref_count a
      = (initial_memory 0 3).ref_count a) ∧
    (remove_ref 64 0 (2 ^ 64 - 1) (add_ref 64 0 (2 ^ 64 - 1) (initial_memory 0 3))).handles
      = (initial_memory 0 3).handles) :=
  ⟨by decide, by decide, by decide, by decide,
    add_ref_remove_ref_identity 64 0 (2 ^ 64 - 1) (initial_memory 0 3) (by decide) (by decide)
      (by decide)⟩

end count_claims

section handle_claims

open ref_count_base ref_count_ptr

theorem Memory.isLive_congr {M N : Memory} (h : M.handles = N.handles) (k : Nat) :
    M.isLive k = N.isLive k := by
  unfold Memory.isLive; rw [h]

/-- C12.  `release()` on a live handle `h` returns the referent `h` held
(null if `h` was empty) and leaves `h` live and empty; no count changes, the
deleter is not called and no other handle changes.  A destruction or an
assignment from `nullptr` of `h` after that performs no decrement: every
count and the deleter calls are still those from before `release()`. -/
theorem release_transfers (w h : Nat) (M : Memory) (hl : M.isLive h = true) :
    (release h M).1 = M.p h ∧
    (release h M).2.p h = none ∧ (release h M).2.isLive h = true ∧
    (∀ a, (release h M).2.ref_count a = M.ref_count a) ∧
    (release h M).2.deleted = M.deleted ∧
    (∀ k, k ≠ h → (release h M).2.handles[k]? = M.handles[k]?) ∧
    (∀ a, (destroy w h (release h M).2).ref_count a = M.ref_count a) ∧
    (destroy w h (release h M).2).deleted = M.deleted ∧
    (∀ a, (assign_nullptr w h (release h M).2).ref_count a = M.ref_count a) ∧
    (assign_nullptr w h (release h M).2).deleted = M.deleted ∧
    (assign_nullptr w h (release h M).2).p h = none := by
  have hh := Memory.handles_of_isLive hl
  have hh1 : (M.set_p h none).handles[h]? = some (Slot.live none) :=
    Memory.set_p_handles_self none hh
  have hp1 : (M.set_p h none).p h = none := Memory.p_of_handles hh1
  have hd : destroy w h (M.set_p h none)
      = { M.set_p h none with handles := (M.set_p h none).handles.set h Slot.dead } := by
    simp only [destroy, hp1]
  have hn : assign_nullptr w h (M.set_p h none) = (M.set_p h none).set_p h none := by
    simp only [assign_nullptr, hp1]
  refine ⟨rfl, hp1, Memory.isLive_of_handles hh1, fun _ => rfl, rfl, ?_, ?_, ?_, ?_, ?_, ?_⟩
  · intro k hk
    exact Memory.set_p_handles_ne M none (Ne.symm hk)
  · intro a
    show (destroy w h (M.set_p h none)).ref_count a = _
    rw [hd]; rfl
  · show (destroy w h (M.set_p h none)).deleted = _
    rw [hd]; rfl
  · intro a
    show (assign_nullptr w h (M.set_p h none)).ref_count a = _
    rw [hn]; rfl
  · show (assign_nullptr w h (M.set_p h none)).deleted = _
    rw [hn]; rfl
  · show (assign_nullptr w h (M.set_p h none)).p h = _
    rw [hn]; exact Memory.set_p_p_self none hh1

/-- Witness of C12: handle 0 of the memory of two objects. -/
theorem release_transfers_witness :
    two_object_memory.isLive 0 = true ∧
    ((release 0 two_object_memory).1 = two_object_memory.p 0 ∧
    (release 0 two_object_memory).2.p 0 = none ∧
    (release 0 two_object_memory).2.isLive 0 = true ∧
    (∀ a, (release 0 two_object_memory).2.ref_count a = two_object_memory.ref_count a) ∧
    (release 0 two_object_memory).2.deleted = two_object_memory.deleted ∧
    (∀ k, k ≠ 0 →
      (release 0 two_object_memory).2.handles[k]? = two_object_memory.handles[k]?) ∧
    (∀ a, (destroy 64 0 (release 0 two_object_memory).2).ref_count a
      = two_object_memory.ref_count a) ∧
    (destroy 64 0 (release 0 two_object_memory).2).deleted = two_object_memory.deleted ∧
    (∀ a, (assign_nullptr 64 0 (release 0 two_object_memory).2).ref_count a
      = two_object_memory.ref_count a) ∧
    (assign_nullptr 64 0 (release 0 two_object_memory).2).deleted
      = two_object_memory.deleted ∧
    (assign_nullptr 64 0 (release 0 two_object_memory).2).p 0 = none) :=
  ⟨rfl, release_transfers 64 0 two_object_memory rfl⟩

/-- C13.  Move-assignment `x = std::move(y)` between two distinct live
handles, where the referent of `x`, if any, has a count of at least 1.
Afterwards `x` holds what `y` held and `y` is empty; the former referent of
`x` has received one decrement and is destroyed exactly when its count was 1;
no increment is applied: every other count, in particular that of a stolen
referent different from the former referent of `x`, is unchanged; and no
other handle changes. -/
theorem move_assign_distinct (w x y : Nat) (M : Memory)
    (hxy : x ≠ y) (hx : M.isLive x = true) (hy : M.isLive y = true)
    (hcx : ∀ o, M.p x = some o → 1 ≤ M.ref_count o ∧ M.ref_count o < 2 ^ w) :
    (move_assign w x y M).p x = M.p y ∧ (move_assign w x y M).p y = none ∧
    (move_assign w x y M).isLive x = true ∧ (move_assign w x y M).isLive y = true ∧
    (∀ o, M.p x = some o → (move_assign w x y M).ref_count o = M.ref_count o - 1) ∧
    (∀ o, M.p x ≠ some o → (move_assign w x y M).ref_count o = M.ref_count o) ∧
    (∀ o, M.p y = some o → M.p x ≠ some o →
      (move_assign w x y M).ref_count o = M.ref_count o) ∧
    (move_assign w x y M).deleted
      = (match M.p x with
        | some o => if M.ref_count o = 1 then o :: M.deleted else M.deleted
        | none => M.deleted) ∧
    (∀ k, k ≠ x → k ≠ y → (move_assign w x y M).handles[k]? = M.handles[k]?) := by
  have hhx := Memory.handles_of_isLive hx
  have hhy := Memory.handles_of_isLive hy
  -- the memory after lines 93-96
  obtain ⟨M1, hM1, h1x, h1y, h1h, h1rc, h1d⟩ : ∃ M1 : Memory,
      M1 = (match M.p x with
        | some a => (remove_ref w a 1 M).set_p x none
        | none => M) ∧
      M1.handles[x]? = some (Slot.live none) ∧ M1.p y = M.p y ∧
      (∀ k, k ≠ x → M1.handles[k]? = M.handles[k]?) ∧
      (∀ b, M1.ref_count b
        = (match M.p x with
          | some a => if b = a then M.ref_count a - 1 else M.ref_count b
          | none => M.ref_count b)) ∧
      M1.deleted
        = (match M.p x with
          | some a => if M.ref_count a = 1 then a :: M.deleted else M.deleted
          | none => M.deleted) := by
    refine ⟨_, rfl, ?_, ?_, ?_, ?_, ?_⟩
    · cases hpx : M.p x with
      | none => simpa [hpx] using hhx
      | some a =>
        exact Memory.set_p_handles_self none (by rw [remove_ref_handles]; exact hhx)
    · cases hpx : M.p x with
      | none => rfl
      | some a =>
        show ((remove_ref w a 1 M).set_p x none).p y = _
        rw [Memory.set_p_p_ne _ none hxy, Memory.p_congr (remove_ref_handles w a 1 M)]
    · intro k hk
      cases hpx : M.p x with
      | none => rfl
      | some a =>
        show ((remove_ref w a 1 M).set_p x none).handles[k]? = _
        rw [Memory.set_p_handles_ne _ none (Ne.symm hk), remove_ref_handles]
    · intro b
      cases hpx : M.p x with
      | none => rfl
      | some a =>
        show (remove_ref w a 1 M).ref_count b = _
        rw [remove_ref_ref_count]
        by_cases hb : b = a
        · simp only [hb, if_true]
          exact fetch_sub_one w _ (hcx a hpx).1 (hcx a hpx).2
        · simp only [hb, if_false]
    · cases hpx : M.p x with
      | none => rfl
      | some a =>
        show (remove_ref w a 1 M).deleted = _
        rw [remove_ref_deleted]
  have hres : move_assign w x y M = (M1.set_p x (M1.p y)).set_p y none := by
    simp only [move_assign, ← hM1]
  have h2x : (M1.set_p x (M1.p y)).handles[x]? = some (Slot.live (M.p y)) := by
    rw [Memory.set_p_handles_self _ h1x, h1y]
  have h2y : (M1.set_p x (M1.p y)).handles[y]? = some (Slot.live (M.p y)) := by
    rw [Memory.set_p_handles_ne _ _ hxy, h1h y (Ne.symm hxy)]; exact hhy
  have h3y : ((M1.set_p x (M1.p y)).set_p y none).handles[y]? = some (Slot.live none) :=
    Memory.set_p_handles_self none h2y
  have h3x : ((M1.set_p x (M1.p y)).set_p y none).handles[x]? = some (Slot.live (M.p y)) := by
    rw [Memory.set_p_handles_ne _ _ (Ne.symm hxy)]; exact h2x
  have hrc : ∀ b, (move_assign w x y M).ref_count b = M1.ref_count b := by
    intro b; rw [hres]; rfl
  rw [hres]
  refine ⟨Memory.p_of_handles h3x, Memory.p_of_handles h3y, Memory.isLive_of_handles h3x,
    Memory.isLive_of_handles h3y, ?_, ?_, ?_, ?_, ?_⟩
  · intro o hox
    show M1.ref_count o = _
    rw [h1rc, hox]; simp
  · intro o hox
    show M1.ref_count o = _
    rw [h1rc]
    cases hpx : M.p x with
    | none => rfl
    | some a =>
      have hne : o ≠ a := fun h => hox (by rw [hpx, h])
      simp [hne]
  · intro o _ hox
    show M1.ref_count o = _
    rw [h1rc]
    cases hpx : M.p x with
    | none => rfl
    | some a =>
      have hne : o ≠ a := fun h => hox (by rw [hpx, h])
      simp [hne]
  · show M1.deleted = _
    exact h1d
  · intro k hkx hky
    rw [Memory.set_p_handles_ne _ _ (Ne.symm hky), Memory.set_p_handles_ne _ _ (Ne.symm hkx),
      h1h k hkx]

/-- Witness of C13: in the memory of two objects of count 1, handle 0
(holding object 0) is move-assigned handle 1 (holding object 1). -/
theorem move_assign_distinct_witness :
    (0 : Nat) ≠ 1 ∧ two_object_memory.isLive 0 = true ∧ two_object_memory.isLive 1 = true ∧
    (∀ o, two_object_memory.p 0 = some o →
      1 ≤ two_object_memory.ref_count o ∧ two_object_memory.ref_count o < 2 ^ 64) ∧
    ((move_assign 64 0 1 two_object_memory).p 0 = two_object_memory.p 1 ∧
    (move_assign 64 0 1 two_object_memory).p 1 = none ∧
    (move_assign 64 0 1 two_object_memory).isLive 0 = true ∧
    (move_assign 64 0 1 two_object_memory).isLive 1 = true ∧
    (∀ o, two_object_memory.p 0 = some o →
      (move_assign 64 0 1 two_object_memory).ref_count o = two_object_memory.ref_count o - 1) ∧
    (∀ o, two_object_memory.p 0 ≠ some o →
      (move_assign 64 0 1 two_object_memory).ref_count o = two_object_memory.ref_count o) ∧
    (∀ o, two_object_memory.p 1 = some o → two_object_memory.p 0 ≠ some o →
      (move_assign 64 0 1 two_object_memory).ref_count o = two_object_memory.ref_count o) ∧
    (move_assign 64 0 1 two_object_memory).deleted
      = (match two_object_memory.p 0 with
        | some o =>
          if two_object_memory.ref_count o = 1 then o :: two_object_memory.deleted
          else two_object_memory.deleted
        | none => two_object_memory.deleted) ∧
    (∀ k, k ≠ 0 → k ≠ 1 →
      (move_assign 64 0 1 two_object_memory).handles[k]? = two_object_memory.handles[k]?)) :=
  have hp0 : two_object_memory.p 0 = some 0 := rfl
  have h1 : ∀ o, two_object_memory.p 0 = some o →
      1 ≤ two_object_memory.ref_count o ∧ two_object_memory.ref_count o < 2 ^ 64 := by
    intro o ho
    rw [hp0] at ho
    cases ho
    decide
  ⟨by decide, rfl, rfl, h1, move_assign_distinct 64 0 1 two_object_memory (by decide) rfl rfl h1⟩

end handle_claims

section recursion_claims

variable {P α ε : Type}

theorem base_loop_of_returns (func : α → Option ε) (xs : List α)
    (h : (base_loop func xs).2 = none) :
    (base_loop func xs).1 = xs ∧ ∀ a ∈ xs, func a = none := by
  induction xs with
  | nil => exact ⟨rfl, fun a ha => by cases ha⟩
  | cons a rest ih =>
    cases hfa : func a with
    | some e => simp [base_loop, hfa] at h
    | none =>
      simp only [base_loop, hfa] at h ⊢
      obtain ⟨h1, h2⟩ := ih h
      refine ⟨by rw [h1], ?_⟩
      intro b hb
      rcases List.mem_cons.mp hb with rfl | hb
      · exact hfa
      · exact h2 b hb

theorem join_step_calls (s i : Activation α ε) :
    (join_step s i).calls = s.calls ++ i.calls := by
  unfold join_step; split <;> rfl

theorem join_step_returns (s i : Activation α ε) (h : (join_step s i).raised = none) :
    s.raised = none ∧ i.raised = none := by
  unfold join_step at h
  cases hi : i.raised with
  | some e => rw [hi] at h; cases h
  | none => rw [hi] at h; exact ⟨h, rfl⟩

/-- An activation that returns normally has seen every call of `func` in its
tree return normally, and, with a splitting that loses and duplicates
nothing, has called `func` on every element of its partitioner. -/
theorem internal_parallel_for_returns (pt : Partitioner P α) (func : α → Option ε)
    (n : Nat) : ∀ (q : P) (t : Activation α ε),
      internal_parallel_for pt func n q = some t → t.raised = none →
      (∀ a ∈ t.calls, func a = none) ∧
      ((∀ r, (↑(pt.elems r) : Multiset α)
          = ↑(pt.elems (pt.split r).1) + ↑(pt.elems (pt.split r).2)) →
        (↑t.calls : Multiset α) = ↑(pt.elems q)) := by
  induction n with
  | zero => intro q t h; simp [internal_parallel_for] at h
  | succ n ih =>
    intro q t h hr
    simp only [internal_parallel_for] at h
    split at h
    · rename_i hE
      cases h
      have hE : pt.elems (pt.split q).1 = [] := by simpa using hE
      obtain ⟨h1, h2⟩ := base_loop_of_returns func _ hr
      refine ⟨?_, ?_⟩
      · intro a ha
        simp only [Activation.calls, h1] at ha
        exact h2 a ha
      · intro hsplit
        rw [hsplit q, hE]
        simp [Activation.calls, h1]
    · cases hs : internal_parallel_for pt func n (pt.split q).1 with
      | none => simp [hs] at h
      | some s =>
        cases hi : internal_parallel_for pt func n (pt.split q).2 with
        | none => simp [hs, hi] at h
        | some i =>
          simp only [hs, hi, Option.some.injEq] at h
          subst h
          obtain ⟨hsr, hir⟩ := join_step_returns s i hr
          obtain ⟨hs1, hs2⟩ := ih _ s hs hsr
          obtain ⟨hi1, hi2⟩ := ih _ i hi hir
          rw [join_step_calls]
          refine ⟨?_, ?_⟩
          · intro a ha
            rcases List.mem_append.mp ha with ha | ha
            · exact hs1 a ha
            · exact hi1 a ha
          · intro hsplit
            rw [hsplit q, ← hs2 hsplit, ← hi2 hsplit]
            rfl

/-- C15.  In a recursive-case activation whose spawned task fails with `e`
(record `s`) and whose inline run returns normally (record `i`):
`t.get()` is executed and the activation fails with `e`.  The inline run
is complete at that point: every call of `func` in it has returned, and,
with a splitting that loses and duplicates nothing, `func` has been invoked
on every element of the remaining partitioner. -/
theorem child_failure_reraised_at_get (pt : Partitioner P α) (func : α → Option ε)
    (fuel : Nat) (q : P) (s i : Activation α ε) (e : ε)
    (hsplit : (pt.elems (pt.split q).1).isEmpty = false)
    (hs : internal_parallel_for pt func fuel (pt.split q).1 = some s)
    (hi : internal_parallel_for pt func fuel (pt.split q).2 = some i)
    (hse : s.raised = some e) (hie : i.raised = none) :
    ∃ t, internal_parallel_for pt func (fuel + 1) q = some t ∧
      t = Activation.fork s i true (some e) ∧ t.raised = some e ∧
      (∀ a ∈ i.calls, func a = none) ∧
      ((∀ r, (↑(pt.elems r) : Multiset α)
          = ↑(pt.elems (pt.split r).1) + ↑(pt.elems (pt.split r).2)) →
        (↑i.calls : Multiset α) = ↑(pt.elems (pt.split q).2)) := by
  obtain ⟨h1, h2⟩ := internal_parallel_for_returns pt func fuel _ i hi hie
  have ht : join_step s i = Activation.fork s i true (some e) := by
    simp only [join_step, hie, hse]
  refine ⟨join_step s i, by simp [internal_parallel_for, hsplit, hs, hi], ht, ?_, h1, h2⟩
  rw [ht]; rfl

/-- Witness of C15: `[0, 2)` split into `[1, 2)` (spawned) and `[0, 1)`
(inline), with a `func` that fails on `1` only. -/
theorem child_failure_reraised_at_get_witness :
    ((midpoint_partitioner 1).elems ((midpoint_partitioner 1).split (0, 2)).1).isEmpty = false ∧
    internal_parallel_for (midpoint_partitioner 1) (fun a => if a = 1 then some a else none) 1
      ((midpoint_partitioner 1).split (0, 2)).1 = some (Activation.base [1] (some 1)) ∧
    internal_parallel_for (midpoint_partitioner 1) (fun a => if a = 1 then some a else none) 1
      ((midpoint_partitioner 1).split (0, 2)).2 = some (Activation.base [0] none) ∧
    (Activation.base [1] (some 1) : Activation Nat Nat).raised = some 1 ∧
    (Activation.base [0] none : Activation Nat Nat).raised = none ∧
    ∃ t, internal_parallel_for (midpoint_partitioner 1)
        (fun a => if a = 1 then some a else none) (1 + 1) (0, 2) = some t ∧
      t = Activation.fork (Activation.base [1] (some 1)) (Activation.base [0] none)
            true (some 1) ∧
      t.raised = some 1 ∧
      (∀ a ∈ (Activation.base [0] none : Activation Nat Nat).calls,
        (fun a => if a = 1 then some a else none) a = none) ∧
      ((∀ r, (↑((midpoint_partitioner 1).elems r) : Multiset Nat)
          = ↑((midpoint_partitioner 1).elems ((midpoint_partitioner 1).split r).1)
            + ↑((midpoint_partitioner 1).elems ((midpoint_partitioner 1).split r).2)) →
        (↑(Activation.base [0] none : Activation Nat Nat).calls : Multiset Nat)
          = ↑((midpoint_partitioner 1).elems ((midpoint_partitioner 1).split (0, 2)).2)) :=
  ⟨by decide, by decide, by decide, rfl, rfl,
    child_failure_reraised_at_get (midpoint_partitioner 1)
      (fun a => if a = 1 then some a else none) 1 (0, 2)
      (Activation.base [1] (some 1)) (Activation.base [0] none) 1
      (by decide) (by decide) (by decide) rfl rfl⟩

/-- C16 (termination).  For a partitioner with a size such that, whenever
`split()` returns a part with non-empty iteration, both that part and the
remainder are strictly smaller than the partitioner before the split, and
for any `func`: `internal_parallel_for`, and so `parallel_for`, returns a
record (a finite tree of activations) under every bound on the nesting
greater than the size of the initial partitioner, and the relation its
recursion descends along is well-founded. -/
theorem termination {R : Type} (pt : Partitioner P α) (func : α → Option ε)
    (size : P → Nat)
    (hsmaller : ∀ q, (pt.elems (pt.split q).1).isEmpty = false →
      size (pt.split q).1 < size q ∧ size (pt.split q).2 < size q)
    (to_partitioner : R → P) (range : R) :
    WellFounded pt.child ∧
    ∀ fuel, size (to_partitioner range) < fuel → ∃ t,
      internal_parallel_for pt func fuel (to_partitioner range) = some t ∧
      parallel_for pt to_partitioner func fuel range = some t := by
  refine ⟨?_, ?_⟩
  · refine Subrelation.wf ?_ (measure size).wf
    intro r q h
    obtain ⟨hne, hr⟩ := h
    have := hsmaller q hne
    show size r < size q
    rcases hr with rfl | rfl
    · exact this.1
    · exact this.2
  · have key : ∀ n (q : P), size q < n → ∃ t, internal_parallel_for pt func n q = some t := by
      intro n
      induction n with
      | zero => intro q hq; omega
      | succ n ih =>
        intro q hq
        by_cases hE : (pt.elems (pt.split q).1).isEmpty = true
        · exact ⟨Activation.base (base_loop func (pt.elems (pt.split q).2)).1
            (base_loop func (pt.elems (pt.split q).2)).2,
            by simp [internal_parallel_for, hE]⟩
        · have hE : (pt.elems (pt.split q).1).isEmpty = false := by simpa using hE
          obtain ⟨h1, h2⟩ := hsmaller q hE
          obtain ⟨s, hs⟩ := ih (pt.split q).1 (by omega)
          obtain ⟨i, hi⟩ := ih (pt.split q).2 (by omega)
          exact ⟨join_step s i, by simp [internal_parallel_for, hE, hs, hi]⟩
    intro fuel hfuel
    obtain ⟨t, ht⟩ := key fuel (to_partitioner range) hfuel
    exact ⟨t, ht, ht⟩

end recursion_claims

section shape_claims

variable {P α ε : Type}

theorem midpoint_partitioner_smaller (grain : Nat) (hg : 1 ≤ grain) (q : Nat × Nat)
    (hne : ((midpoint_partitioner grain).elems ((midpoint_partitioner grain).split q).1).isEmpty
      = false) :
    ((midpoint_partitioner grain).split q).1.2 - ((midpoint_partitioner grain).split q).1.1
        < q.2 - q.1 ∧
    ((midpoint_partitioner grain).split q).2.2 - ((midpoint_partitioner grain).split q).2.1
        < q.2 - q.1 := by
  obtain ⟨b, e⟩ := q
  simp only [midpoint_partitioner] at hne ⊢
  by_cases hlen : e - b > grain
  · simp only [hlen, if_true]
    have h2 : 1 ≤ (e - b) / 2 := by omega
    constructor <;> omega
  · simp [hlen] at hne

/-- Witness of C16: the midpoint partitioner of grain 2 over `[0, 8)`, sized
by the length of the sub-range, with a `func` that fails on every element. -/
theorem termination_witness :
    (∀ q : Nat × Nat,
      ((midpoint_partitioner 2).elems ((midpoint_partitioner 2).split q).1).isEmpty = false →
      (fun r : Nat × Nat => r.2 - r.1) ((midpoint_partitioner 2).split q).1
          < (fun r : Nat × Nat => r.2 - r.1) q ∧
      (fun r : Nat × Nat => r.2 - r.1) ((midpoint_partitioner 2).split q).2
          < (fun r : Nat × Nat => r.2 - r.1) q) ∧
    (WellFounded (midpoint_partitioner 2).child ∧
    ∀ fuel, (fun r : Nat × Nat => r.2 - r.1) (id (0, 8)) < fuel → ∃ t,
      internal_parallel_for (midpoint_partitioner 2) (fun a => some a) fuel (id (0, 8))
        = some t ∧
      parallel_for (midpoint_partitioner 2) id (fun a => some a) fuel (0, 8) = some t) :=
  ⟨midpoint_partitioner_smaller 2 (by decide),
    termination (midpoint_partitioner 2) (fun a => some a) (fun r : Nat × Nat => r.2 - r.1)
      (midpoint_partitioner_smaller 2 (by decide)) id (0, 8)⟩

theorem join_step_shape (s i : Activation α ε) :
    (join_step s i).spawnCount = 1 + s.spawnCount + i.spawnCount ∧
    (join_step s i).leaves = s.leaves ++ i.leaves := by
  unfold join_step; split <;> exact ⟨rfl, rfl⟩

/-- C18 (shape of the recursion tree).  For every run of
`internal_parallel_for` that returns a record, with a failing `func` or not:
the number of base-case activations is the number of spawned tasks plus one,
the `split()` calls of the run are defined under the same bound, the number
of spawned tasks is the number of `split()` calls that returned a part with
non-empty iteration, the number of base-case activations is the number of
the other `split()` calls, and each activation made one `split()` call. -/
theorem recursion_tree_shape (pt : Partitioner P α) (func : α → Option ε) (fuel : Nat) :
    ∀ (q : P) (t : Activation α ε), internal_parallel_for pt func fuel q = some t →
      t.leaves.length = t.spawnCount + 1 ∧
      ∃ calls, split_calls pt fuel q = some calls ∧
        t.spawnCount = calls.count true ∧
        t.leaves.length = calls.count false ∧
        calls.length = t.leaves.length + t.spawnCount := by
  induction fuel with
  | zero => intro q t h; simp [internal_parallel_for] at h
  | succ n ih =>
    intro q t h
    simp only [internal_parallel_for] at h
    simp only [split_calls]
    split at h
    · rename_i hE
      cases h
      simp [hE, Activation.leaves, Activation.spawnCount]
    · rename_i hE
      cases hs : internal_parallel_for pt func n (pt.split q).1 with
      | none => simp [hs] at h
      | some s =>
        cases hi : internal_parallel_for pt func n (pt.split q).2 with
        | none => simp [hs, hi] at h
        | some i =>
          simp only [hs, hi, Option.some.injEq] at h
          subst h
          obtain ⟨hs1, cs, hcs, hs2, hs3, hs4⟩ := ih _ s hs
          obtain ⟨hi1, ci, hci, hi2, hi3, hi4⟩ := ih _ i hi
          obtain ⟨j1, j2⟩ := join_step_shape s i
          rw [j1, j2, List.length_append]
          refine ⟨by omega, true :: (cs ++ ci), by simp [hE, hcs, hci], ?_, ?_, ?_⟩
          · simp only [List.count_cons_self, List.count_append]; omega
          · rw [List.count_cons_of_ne (by decide), List.count_append]; omega
          · simp only [List.length_cons, List.length_append]; omega

/-- Witness of C18: the run of the concrete scenario, `[0, 8)` with grain
2. -/
theorem recursion_tree_shape_witness :
    internal_parallel_for (midpoint_partitioner 2) (fun _ => (none : Option Unit)) 3 (0, 8)
      = some (Activation.fork
          (Activation.fork (Activation.base [6, 7] none) (Activation.base [4, 5] none)
            true none)
          (Activation.fork (Activation.base [2, 3] none) (Activation.base [0, 1] none)
            true none)
          true none) ∧
    ((Activation.fork
          (Activation.fork (Activation.base [6, 7] none) (Activation.base [4, 5] none)
            true none)
          (Activation.fork (Activation.base [2, 3] none) (Activation.base [0, 1] none)
            true none)
          true none : Activation Nat Unit).leaves.length
      = (Activation.fork
          (Activation.fork (Activation.base [6, 7] none) (Activation.base [4, 5] none)
            true none)
          (Activation.fork (Activation.base [2, 3] none) (Activation.base [0, 1] none)
            true none)
          true none : Activation Nat Unit).spawnCount + 1 ∧
      ∃ calls, split_calls (midpoint_partitioner 2) 3 (0, 8) = some calls ∧
        (Activation.fork
          (Activation.fork (Activation.base [6, 7] none) (Activation.base [4, 5] none)
            true none)
          (Activation.fork (Activation.base [2, 3] none) (Activation.base [0, 1] none)
            true none)
          true none : Activation Nat Unit).spawnCount = calls.count true ∧
        (Activation.fork
          (Activation.fork (Activation.base [6, 7] none) (Activation.base [4, 5] none)
            true none)
          (Activation.fork (Activation.base [2, 3] none) (Activation.base [0, 1] none)
            true none)
          true none : Activation Nat Unit).leaves.length = calls.count false ∧
        calls.length
          = (Activation.fork
              (Activation.fork (Activation.base [6, 7] none) (Activation.base [4, 5] none)
                true none)
              (Activation.fork (Activation.base [2, 3] none) (Activation.base [0, 1] none)
                true none)
              true none : Activation Nat Unit).leaves.length
            + (Activation.fork
              (Activation.fork (Activation.base [6, 7] none) (Activation.base [4, 5] none)
                true none)
              (Activation.fork (Activation.base [2, 3] none) (Activation.base [0, 1] none)
                true none)
              true none : Activation Nat Unit).spawnCount) :=
  ⟨by decide,
    recursion_tree_shape (midpoint_partitioner 2) (fun _ => (none : Option Unit)) 3 (0, 8) _
      (by decide)⟩

end shape_claims

section scenario_claims

open ref_count_base ref_count_ptr

/-- C11 (concrete handle scenario).  An object created at address `a` with
count 1 is adopted by handle `h1` (handle 0) through the explicit constructor,
which leaves the count 1; copy-constructing `h2` (handle 1) from `h1` makes
the count 2; `h1 = nullptr` makes the count 1, calls no deleter and leaves
`h1` empty and `h2` holding the object; destroying `h2` makes the count 0 and
calls the deleter, the only deleter call of the whole sequence. -/
theorem handle_scenario (w a : Nat) (hw : 2 ≤ w) :
    ((scenario_adopted a).ref_count a = 1 ∧ (scenario_adopted a).p 0 = some a ∧
      (scenario_adopted a).deleted = []) ∧
    ((scenario_copied w a).ref_count a = 2 ∧ (scenario_copied w a).p 0 = some a ∧
      (scenario_copied w a).p 1 = some a ∧ (scenario_copied w a).deleted = []) ∧
    ((scenario_nulled w a).ref_count a = 1 ∧ (scenario_nulled w a).isLive 0 = true ∧
      (scenario_nulled w a).p 0 = none ∧ (scenario_nulled w a).p 1 = some a ∧
      (scenario_nulled w a).deleted = []) ∧
    ((scenario_destroyed w a).ref_count a = 0 ∧ (scenario_destroyed w a).isLive 1 = false ∧
      (scenario_destroyed w a).deleted = [a] ∧ (scenario_destroyed w a).deleteCount a = 1) := by
  have h4 : 2 ^ 2 ≤ 2 ^ w := Nat.pow_le_pow_right (by decide) hw
  have h4' : 4 ≤ 2 ^ w := by simpa using h4
  have e2 : (1 + 1) % 2 ^ w = 2 := Nat.mod_eq_of_lt (by omega)
  have e1 : (2 + (2 ^ w - 1)) % 2 ^ w = 1 := fetch_sub_one w 2 (by omega) (by omega)
  have e0 : (1 + (2 ^ w - 1)) % 2 ^ w = 0 := fetch_sub_one w 1 (by omega) (by omega)
  have p10 : (scenario_adopted a).p 0 = some a := rfl
  have r1 : (scenario_adopted a).ref_count a = 1 := by
    simp [scenario_adopted, from_raw, construct]
  have hM2 : scenario_copied w a
      = add_ref w a 1 (from_raw (some a) (scenario_adopted a)) := rfl
  have r2 : (scenario_copied w a).ref_count a = 2 := by
    rw [hM2, add_ref_ref_count_self]
    show ((scenario_adopted a).ref_count a + 1) % 2 ^ w = 2
    rw [r1, e2]
  have p20 : (scenario_copied w a).p 0 = some a := rfl
  have p21 : (scenario_copied w a).p 1 = some a := rfl
  have hM3 : scenario_nulled w a = (remove_ref w a 1 (scenario_copied w a)).set_p 0 none := rfl
  have r3 : (scenario_nulled w a).ref_count a = 1 := by
    rw [hM3]
    show (remove_ref w a 1 (scenario_copied w a)).ref_count a = 1
    rw [remove_ref_ref_count, if_pos rfl, r2, e1]
  have d3 : (scenario_nulled w a).deleted = [] := by
    rw [hM3]
    show (remove_ref w a 1 (scenario_copied w a)).deleted = []
    rw [remove_ref_deleted, r2, if_neg (by decide)]
    rfl
  have h3 : (scenario_nulled w a).handles = [Slot.live none, Slot.live (some a)] := by
    rw [hM3]
    show (remove_ref w a 1 (scenario_copied w a)).handles.set 0 (Slot.live none) = _
    rw [remove_ref_handles]
    rfl
  have p30 : (scenario_nulled w a).p 0 = none := by simp [Memory.p, h3]
  have l30 : (scenario_nulled w a).isLive 0 = true := by simp [Memory.isLive, h3]
  have p31 : (scenario_nulled w a).p 1 = some a := by simp [Memory.p, h3]
  have hM4 : scenario_destroyed w a = { remove_ref w a 1 (scenario_nulled w a) with
      handles := (remove_ref w a 1 (scenario_nulled w a)).handles.set 1 Slot.dead } := by
    show destroy w 1 (scenario_nulled w a) = _
    simp only [destroy, p31]
  have r4 : (scenario_destroyed w a).ref_count a = 0 := by
    rw [hM4]
    show (remove_ref w a 1 (scenario_nulled w a)).ref_count a = 0
    rw [remove_ref_ref_count, if_pos rfl, r3, e0]
  have d4 : (scenario_destroyed w a).deleted = [a] := by
    rw [hM4]
    show (remove_ref w a 1 (scenario_nulled w a)).deleted = [a]
    rw [remove_ref_deleted, r3, if_pos rfl, d3]
  have l4 : (scenario_destroyed w a).isLive 1 = false := by
    have : (scenario_destroyed w a).handles = [Slot.live none, Slot.dead] := by
      rw [hM4]
      show (remove_ref w a 1 (scenario_nulled w a)).handles.set 1 Slot.dead = _
      rw [remove_ref_handles, h3]
      rfl
    simp [Memory.isLive, this]
  refine ⟨⟨r1, p10, rfl⟩, ⟨r2, p20, p21, rfl⟩, ⟨r3, l30, p30, p31, d3⟩, r4, l4, d4, ?_⟩
  simp [Memory.deleteCount, d4]

/-- Witness of C11: a 64-bit `std::size_t` and the object at address 0. -/
theorem handle_scenario_witness :
    2 ≤ 64 ∧
    (((scenario_adopted 0).ref_count 0 = 1 ∧ (scenario_adopted 0).p 0 = some 0 ∧
      (scenario_adopted 0).deleted = []) ∧
    ((scenario_copied 64 0).ref_count 0 = 2 ∧ (scenario_copied 64 0).p 0 = some 0 ∧
      (scenario_copied 64 0).p 1 = some 0 ∧ (scenario_copied 64 0).deleted = []) ∧
    ((scenario_nulled 64 0).ref_count 0 = 1 ∧ (scenario_nulled 64 0).isLive 0 = true ∧
      (scenario_nulled 64 0).p 0 = none ∧ (scenario_nulled 64 0).p 1 = some 0 ∧
      (scenario_nulled 64 0).deleted = []) ∧
    ((scenario_destroyed 64 0).ref_count 0 = 0 ∧ (scenario_destroyed 64 0).isLive 1 = false ∧
      (scenario_destroyed 64 0).deleted = [0] ∧ (scenario_destroyed 64 0).deleteCount 0 = 1)) :=
  ⟨by decide, handle_scenario 64 0 (by decide)⟩

end scenario_claims

end async
